import Mathlib

/-!
Shallow embedding of the csvql query engine (`src/query.ts`) together with
proofs about its behaviour.  Rows are lists of string fields; the query
expression tree mirrors the parsed `node-query` output consumed by
`executeQuery`; JavaScript's `undefined` field reads, `parseInt` coercion and
object-as-record semantics are made explicit.
-/

set_option autoImplicit false

namespace Csvql

/-- A data row: an ordered list of string fields, as yielded by `readCSV`. -/
abbrev Row := List String

deriving instance DecidableEq for Except

/-- Literal values occurring as right operands in the parsed `WHERE` tree. -/
inductive SQLValue where
  | str (s : String)
  | num (n : Int)
  | bool (b : Bool)
deriving DecidableEq

/-- The column expression of one selected column: either a plain column name
or a single-argument function call over a column. -/
inductive ColExpr where
  | col (name : String)
  | funcCall (name : String) (arg : String)
deriving DecidableEq

/-- One entry of the parsed column selection list: a column expression plus an
optional alias (`column.as`). -/
structure SQLColumn where
  expr : ColExpr
  as : Option String
deriving DecidableEq

/-- The parsed `WHERE` expression tree: comparison leaves (`=`, `LIKE`,
`SEMVER`) and binary combinators (`AND`, `OR`). -/
inductive WhereExpr where
  | eqOp (column : String) (value : SQLValue)
  | likeOp (column : String) (value : String)
  | semverOp (column : String) (value : SQLValue)
  | andOp (left right : WhereExpr)
  | orOp (left right : WhereExpr)
deriving DecidableEq

/-- The parsed query as consumed by `executeQuery`: optional projection list,
optional `WHERE` tree (`none` selects every row), and the `LIMIT`/`OFFSET`
pair (defaults `offset = 0`, `limit = 10` are applied by the destructuring). -/
structure Query where
  columns : Option (List SQLColumn)
  whereExpr : Option WhereExpr
  offset : Nat
  limit : Nat

/-- Fatal errors raised by `executeQuery`: a data row whose field count
differs from the header's (the payload is the 1-based file line number,
header included); an invalid `SEMVER` right operand (the payload is the
stringified operand, as interpolated into the thrown message); and the
`SyntaxError` thrown by `new RegExp` on an invalid LIKE pattern body (the
payload is the regular-expression source that failed to compile). -/
inductive QueryError where
  | rowShapeMismatch (line : Nat)
  | invalidVersionOperand (value : String)
  | invalidRegex (source : String)
deriving DecidableEq

/-- Interface of the external `semver` npm library, which is not part of this
repository.  `executeSemverOperation` is parameterized over it: `valid`
decides `semver.valid(s) !== null`, `validRange` decides
`semver.validRange(s) !== null`, `coerceOk` decides
`semver.coerce(n) !== null`, and `satisfies` is `semver.satisfies`. -/
structure SemverLib where
  valid : String → Bool
  validRange : String → Bool
  coerceOk : Int → Bool
  satisfies : String → String → Bool

/-- Interface of the host JavaScript regular-expression machinery, which is
not part of this repository: `compile src` models `new RegExp(src)`, with
`none` for a construction that throws `SyntaxError`; the source uses a
compiled expression only through `reg.test`, so the compiled value is
carried as its test function (`test` stringifies its argument, which the
call sites account for by passing `"undefined"` for a missing field). -/
structure RegExpLib where
  compile : String → Option (String → Bool)

/-- JavaScript `String(value)` on a literal operand. -/
def jsString : SQLValue → String
  | .str s => s
  | .num n => toString n
  | .bool b => if b then "true" else "false"

/-- Numeric value of a decimal digit character. -/
def digitVal (c : Char) : Nat := c.toNat - 48

/-- Value of a non-empty run of decimal digits, most significant first. -/
def parseDigits (cs : List Char) : Nat := cs.foldl (fun a c => a * 10 + digitVal c) 0

/-- JavaScript `parseInt(s, 10)`: skip leading whitespace, read an optional
sign and then the longest run of leading decimal digits, ignoring any
trailing garbage; `none` models the `NaN` result when no digit is found. -/
def parseIntJS (s : String) : Option Int :=
  let t := s.toList.dropWhile (fun c => c = ' ' || c = '\t' || c = '\n' || c = '\r')
  match t with
  | '-' :: r =>
    let ds := r.takeWhile Char.isDigit
    if ds.isEmpty then none else some (-(parseDigits ds : Int))
  | '+' :: r =>
    let ds := r.takeWhile Char.isDigit
    if ds.isEmpty then none else some ((parseDigits ds : Int))
  | r =>
    let ds := r.takeWhile Char.isDigit
    if ds.isEmpty then none else some ((parseDigits ds : Int))

/-- The field of `data` under the column named `columnName`:
`header.findIndex(v => v === columnName)` followed by the array read
`data[column]`; `none` models the `undefined` produced either by index `-1`
or by an out-of-range read. -/
def fieldAt (data header : List String) (columnName : String) : Option String :=
  (header.findIdx? (fun v => v == columnName)).bind (fun i => data.get? i)

/-- `executeEqualOperation`: coerce the row's field to the literal's type
(`parseInt` base 10 for numbers, `=== 'true'` for booleans, raw string
otherwise) and return the row exactly when the coerced field equals the
literal.  A `none` field models the `undefined` read: `parseInt(undefined)`
is `NaN`, `undefined === 'true'` is `false`, and `undefined` never equals a
string literal. -/
def executeEqualOperation (data header : List String) (columnName : String)
    (value : SQLValue) : Option Row :=
  let field := fieldAt data header columnName
  let isMatch : Bool :=
    match value with
    | .num n =>
      match field with
      | some f => parseIntJS f == some n
      | none => false
    | .bool b =>
      (match field with
       | some f => f == "true"
       | none => false) == b
    | .str s =>
      match field with
      | some f => f == s
      | none => false
  if isMatch then some data else none

/-- All `%` characters removed from a pattern (`value.replace(/%/g, '')`). -/
def stripPercent (s : String) : String := String.mk (s.toList.filter (fun c => c ≠ '%'))

/-- `s` begins with `p` (character lists). -/
def startsWithL (s p : List Char) : Bool := s.take p.length == p

/-- `s` ends with `p` (character lists). -/
def endsWithL (s p : List Char) : Bool := s.reverse.take p.length == p.reverse

/-- `s` contains `p` as a contiguous run (character lists). -/
def containsL (s p : List Char) : Bool := s.tails.any (fun t => t.take p.length == p)

/-- Each `.` of the stripped pattern body preceded by a backslash
(`.replace(/\./g, '\\.')`). -/
def escapeDots (s : String) : String :=
  String.mk (s.toList.foldr (fun c acc => if c = '.' then '\\' :: '.' :: acc else c :: acc) [])

/-- The regular-expression source the LIKE operator builds, if any: the
pattern body is the pattern with every `%` removed and each `.` escaped, and
the anchoring shape — `^.*(body).*$`, `^.*(body)$` or `^(body).*$` — is
selected by whether the pattern starts and/or ends with `%`.  With no
leading or trailing `%`, `reg` stays `undefined` and no source exists. -/
def likeRegexSrc (value : String) : Option String :=
  let anyBegin := startsWithL value.toList ['%']
  let anyEnd := endsWithL value.toList ['%']
  let middleWith := anyBegin && anyEnd
  let search := escapeDots (stripPercent value)
  if middleWith then some ("^.*(" ++ search ++ ").*$")
  else if anyBegin then some ("^.*(" ++ search ++ ")$")
  else if anyEnd then some ("^(" ++ search ++ ").*$")
  else none

/-- `executeLikeOperation`: build the anchored regular expression selected
by the pattern's `%` markers (`likeRegexSrc`) and return the row exactly
when `reg.test(data[column])` holds.  When no expression is built the test
`reg?.test(...) === true` is false and the row is absent; when `new RegExp`
throws `SyntaxError` on an invalid body, the query aborts.  A missing column
resolves to index `-1`, and `reg.test(data[-1])` stringifies `undefined`:
the tested field then is the literal string `"undefined"`. -/
def executeLikeOperation (R : RegExpLib) (data header : List String) (columnName : String)
    (value : String) : Except QueryError (Option Row) :=
  let field := (fieldAt data header columnName).getD "undefined"
  match likeRegexSrc value with
  | none => .ok none
  | some src =>
    match R.compile src with
    | none => .error (.invalidRegex src)
    | some t => if t field then .ok (some data) else .ok none

/-- `executeSemverOperation`: first `semver.valid(data[column])` — a row
whose field is not a valid version (including the `undefined` read of a
missing column) is silently rejected; only then is the operand validated,
where a string that is not a valid range or a number that does not coerce
throws; finally `semver.satisfies(field, String(value))` decides the row. -/
def executeSemverOperation (S : SemverLib) (data header : List String)
    (columnName : String) (value : SQLValue) : Except QueryError (Option Row) :=
  let field := fieldAt data header columnName
  let fieldValid : Bool :=
    match field with
    | some f => S.valid f
    | none => false
  let operandInvalid : Bool :=
    match value with
    | .str s => !S.validRange s
    | .num n => !S.coerceOk n
    | .bool _ => false
  if !fieldValid then .ok none
  else if operandInvalid then .error (.invalidVersionOperand (jsString value))
  else if S.satisfies ((field).getD "undefined") (jsString value) then .ok (some data)
  else .ok none

/-- Evaluation of the `WHERE` tree via the `SQLOperations` dispatch table:
`AND` feeds the left branch's returned row into the right branch; `OR`
returns the left result when it matched and otherwise evaluates the right
branch against the original row. -/
def evalWhere (S : SemverLib) (R : RegExpLib) :
    WhereExpr → Row → List String → Except QueryError (Option Row)
  | .eqOp c v, data, header => .ok (executeEqualOperation data header c v)
  | .likeOp c v, data, header => executeLikeOperation R data header c v
  | .semverOp c v, data, header => executeSemverOperation S data header c v
  | .andOp l r, data, header =>
    match evalWhere S R l data header with
    | .error e => .error e
    | .ok none => .ok none
    | .ok (some res) => evalWhere S R r res header
  | .orOp l r, data, header =>
    match evalWhere S R l data header with
    | .error e => .error e
    | .ok (some res) => .ok (some res)
    | .ok none => evalWhere S R r data header

/-- The operation selected by the top-level `WHERE` dispatch:
`executeNoneOperation` (always return the row) when no `WHERE` clause was
parsed, otherwise the tree evaluation. -/
def evalOp (S : SemverLib) (R : RegExpLib) (w : Option WhereExpr) (data : Row)
    (header : List String) : Except QueryError (Option Row) :=
  match w with
  | none => .ok (some data)
  | some e => evalWhere S R e data header

/-- Bool-valued `Except.isOk`, kept decidable for concrete evaluation. -/
def isOkB {ε α : Type} : Except ε α → Bool
  | .ok _ => true
  | .error _ => false

/-- `getColumnName`: a function-call selection renders as the literal string
`name(argColumn)`; a plain selection is the column name itself. -/
def getColumnName (c : SQLColumn) : String :=
  match c.expr with
  | .funcCall f a => f ++ "(" ++ a ++ ")"
  | .col n => n

/-- `column.as || getColumnName(column)`: the alias when it is present and
truthy (a non-empty string), otherwise the derived column name. -/
def aliasOrName (c : SQLColumn) : String :=
  match c.as with
  | some a => if a = "" then getColumnName c else a
  | none => getColumnName c

/-- A list paired with its element indices, starting at `n` (the index the
JavaScript `reduce`/`map` callbacks receive). -/
def idxZip {α : Type} : Nat → List α → List (Nat × α)
  | _, [] => []
  | n, a :: as => (n, a) :: idxZip (n + 1) as

/-- A JavaScript object built by `reduce` with spread-and-overwrite
(`{...value, [k]: v}`): represented as the reversed pair list, so that
`List.lookup` (first hit) realizes the later-entry-wins semantics. -/
def buildRecord {α : Type} (pairs : List (String × α)) : List (String × α) :=
  pairs.foldl (fun r kv => kv :: r) []

/-- The keys of the `headerIndex` record: the derived names of the selected
columns when a projection was given, else the raw source header names. -/
def keysOf (q : Query) (originalHeader : List String) : List String :=
  match q.columns with
  | some cols => cols.map getColumnName
  | none => originalHeader

/-- `headerIndex`: derived column name (or raw header name) to output
position, built once from the query's selection list or the source header. -/
def headerIndexOf (q : Query) (originalHeader : List String) : List (String × Nat) :=
  match q.columns with
  | some cols => buildRecord ((idxZip 0 cols).map (fun ic => (getColumnName ic.2, ic.1)))
  | none => buildRecord ((idxZip 0 originalHeader).map (fun ic => (ic.2, ic.1)))

/-- `headerName`: derived column name (or raw header name) to display name
(`column.as || getColumnName(column)`, resp. the name itself). -/
def headerNameOf (q : Query) (originalHeader : List String) : List (String × String) :=
  match q.columns with
  | some cols => buildRecord (cols.map (fun c => (getColumnName c, aliasOrName c)))
  | none => buildRecord (originalHeader.map (fun n => (n, n)))

/-- The envelope's `header` field: `header.map((name) => headerName[name])`,
where `header` is the derived-name list (or the raw source header).  Every
entry of that list is a key of `headerName`, so the `undefined` default is
never reached. -/
def displayHeaderOf (q : Query) (originalHeader : List String) : List String :=
  (keysOf q originalHeader).map
    (fun n => (List.lookup n (headerNameOf q originalHeader)).getD "undefined")

/-- JavaScript sparse-array assignment `value[p] = v` on a `string[]`: in
range it overwrites; past the end it pads the array with holes (`none`) up to
`p` and places `v` there. -/
def setSparse (l : List (Option String)) (p : Nat) (v : String) : List (Option String) :=
  if p < l.length then l.set p (some v)
  else l ++ List.replicate (p - l.length) none ++ [some v]

/-- The per-row projection `reduce`: each source field at index `i` whose
source header name has an entry in `headerIndex` is written to that output
position of a freshly allocated array; fields without an entry are skipped.
An out-of-range header read stringifies to the object key `"undefined"`. -/
def projectRow (headerIndex : List (String × Nat)) (originalHeader : List String)
    (row : Row) : List (Option String) :=
  (idxZip 0 row).foldl
    (fun value iv =>
      match List.lookup (originalHeader.getD iv.1 "undefined") headerIndex with
      | some position => setSparse value position iv.2
      | none => value)
    []

/-- The streaming loop of `executeQuery` over the data rows (header already
consumed): `line` is the 1-based file line of the row at hand, `total` counts
every accepted row, `result` is the page buffer.  A row whose field count
differs from the header's aborts with `rowShapeMismatch`; an accepted row is
discarded when the buffer is full, or `start ≠ 0` and fewer than `start`
matches were seen, or more than `end` matches were seen. -/
def runRows (op : Row → Except QueryError (Option Row)) (hdrLen limit start endV : Nat) :
    List Row → Nat → Nat → List Row → Except QueryError (Nat × List Row)
  | [], _, total, result => .ok (total, result)
  | row :: rest, line, total, result =>
    if hdrLen ≠ row.length then .error (.rowShapeMismatch line)
    else
      match op row with
      | .error e => .error e
      | .ok none => runRows op hdrLen limit start endV rest (line + 1) total result
      | .ok (some data) =>
        if result.length = limit ∨ (start ≠ 0 ∧ total < start) ∨ total > endV then
          runRows op hdrLen limit start endV rest (line + 1) (total + 1) result
        else
          runRows op hdrLen limit start endV rest (line + 1) (total + 1) (result ++ [data])

/-- `pages`: `total / limit` rounded up to the next integer when the float
quotient is not integral (`Number.isInteger` / `| 0` arithmetic), floored to
at least one.  At `limit = 0` the float path (`NaN`/`Infinity` quotients)
also produces `1`, which the `total % 0 = total` convention reproduces. -/
def pagesOf (total limit : Nat) : Nat :=
  max 1 (if total % limit = 0 then total / limit else total / limit + 1)

/-- The result envelope returned by `executeQuery` (minus the file path,
which only echoes the caller's input). -/
structure Envelope where
  total : Nat
  page : Nat
  pages : Nat
  header : List String
  result : List (List (Option String))
deriving DecidableEq

/-- `executeQuery` over an already-read stream of records (first record is
the header row): sets up the header records from the first row, streams the
data rows through the predicate and page accumulator, remaps the page rows
through the projection, and assembles the envelope.  With no records at all
the loop body never runs and the empty envelope is returned. -/
def executeQuery (S : SemverLib) (R : RegExpLib) (q : Query) (rows : List Row) :
    Except QueryError Envelope :=
  let start := q.offset * q.limit
  let endV := start + q.limit
  let page := q.offset + 1
  match rows with
  | [] => .ok { total := 0, page := page, pages := pagesOf 0 q.limit, header := [], result := [] }
  | originalHeader :: dataRows =>
    match runRows (fun row => evalOp S R q.whereExpr row originalHeader)
        originalHeader.length q.limit start endV dataRows 2 0 [] with
    | .error e => .error e
    | .ok (total, pageRows) =>
      .ok { total := total
            page := page
            pages := pagesOf total q.limit
            header := displayHeaderOf q originalHeader
            result := pageRows.map (projectRow (headerIndexOf q originalHeader) originalHeader) }

/-- Whether `op` accepts a row (returns `ok (some _)`). -/
def isAccepted (op : Row → Except QueryError (Option Row)) (r : Row) : Bool :=
  match op r with
  | .ok (some _) => true
  | _ => false

/-- The rows of a stream accepted by `op`, in stream order. -/
def acceptedOf (op : Row → Except QueryError (Option Row)) (rows : List Row) : List Row :=
  rows.filter (isAccepted op)

/-- The data rows accepted by the query's predicate, in stream order. -/
def acceptedRows (S : SemverLib) (R : RegExpLib) (w : Option WhereExpr)
    (originalHeader : List String) (rows : List Row) : List Row :=
  acceptedOf (fun r => evalOp S R w r originalHeader) rows

/-- A trivial instance of the semver interface, used to run the model on
concrete inputs. -/
def trivialSemver : SemverLib :=
  { valid := fun _ => false
    validRange := fun _ => true
    coerceOk := fun _ => true
    satisfies := fun _ _ => false }

/-- A character the sample regex instance treats as plain text. -/
def bodyTextChar (c : Char) : Bool := c.isAlphanum || c = '-' || c = '_' || c = ' '

/-- The literal text denoted by a pattern body made of plain-text characters
and escaped dots; `none` on anything else. -/
def parseLiteralBody : List Char → Option (List Char)
  | [] => some []
  | '\\' :: '.' :: r => (parseLiteralBody r).map (fun t => '.' :: t)
  | c :: r => if bodyTextChar c then (parseLiteralBody r).map (fun t => c :: t) else none

/-- Compilation function of the sample regex instance: it recognises exactly
the three anchored shapes the LIKE operator builds, with a body of
plain-text characters and escaped dots, and decides them the way JavaScript
does — `^.*(B).*$` as a substring test, `^.*(B)$` as a suffix test,
`^(B).*$` as a start test on the body's literal text; every other source is
rejected (which agrees with JavaScript on bodies such as `(` that make
`new RegExp` throw, and is merely a partial sample elsewhere). -/
def sampleCompile (src : List Char) : Option (String → Bool) :=
  if startsWithL src ("^.*(".toList) && endsWithL src (").*$".toList)
      && decide (8 ≤ src.length) then
    match parseLiteralBody ((src.drop 4).take (src.length - 8)) with
    | some b => some (fun s => containsL s.toList b)
    | none => none
  else if startsWithL src ("^.*(".toList) && endsWithL src (")$".toList)
      && decide (6 ≤ src.length) then
    match parseLiteralBody ((src.drop 4).take (src.length - 6)) with
    | some b => some (fun s => endsWithL s.toList b)
    | none => none
  else if startsWithL src ("^(".toList) && endsWithL src (").*$".toList)
      && decide (6 ≤ src.length) then
    match parseLiteralBody ((src.drop 2).take (src.length - 6)) with
    | some b => some (fun s => startsWithL s.toList b)
    | none => none
  else none

/-- A concrete regex-library instance built on `sampleCompile`, used to run
the model on concrete inputs. -/
def sampleRegExp : RegExpLib := ⟨fun src => sampleCompile src.toList⟩

/-- Records, as a regex-library instance, the JavaScript behaviour of the
single expression the counterexample compiles: `^.*(a|b).*$` matches exactly
the strings that contain an `a` or a `b` — the `|` of the pattern body is
alternation, not literal text. -/
def jsAlternation : RegExpLib :=
  ⟨fun src =>
    if src = "^.*(a|b).*$" then
      some (fun s => containsL s.toList ['a'] || containsL s.toList ['b'])
    else none⟩

section StringLemmas

/-- Taking the pattern's length yields the pattern exactly when the pattern
is a leading run of the list. -/
theorem take_len_eq_iff (t p : List Char) :
    (t.take p.length == p) = true ↔ ∃ b, t = p ++ b := by
  rw [beq_iff_eq]
  constructor
  · intro h
    refine ⟨t.drop p.length, ?_⟩
    conv_lhs => rw [← List.take_append_drop p.length t]
    rw [h]
  · rintro ⟨b, rfl⟩
    simp

theorem startsWithL_iff (s p : List Char) :
    startsWithL s p = true ↔ ∃ b, s = p ++ b := take_len_eq_iff s p

theorem endsWithL_iff (s p : List Char) :
    endsWithL s p = true ↔ ∃ a, s = a ++ p := by
  unfold endsWithL
  have hlen : p.length = p.reverse.length := by simp
  rw [hlen, take_len_eq_iff]
  constructor
  · rintro ⟨b, hb⟩
    refine ⟨b.reverse, ?_⟩
    have := congrArg List.reverse hb
    simpa using this
  · rintro ⟨a, rfl⟩
    exact ⟨a.reverse, by simp⟩

theorem containsL_iff (s p : List Char) :
    containsL s p = true ↔ ∃ a b, s = a ++ p ++ b := by
  unfold containsL
  rw [List.any_eq_true]
  constructor
  · rintro ⟨t, ht, hp⟩
    obtain ⟨a, ha⟩ := (List.mem_tails t s).mp ht
    obtain ⟨b, rfl⟩ := (take_len_eq_iff t p).mp hp
    exact ⟨a, b, by rw [← ha, List.append_assoc]⟩
  · rintro ⟨a, b, rfl⟩
    refine ⟨p ++ b, (List.mem_tails _ _).mpr ⟨a, by rw [List.append_assoc]⟩, ?_⟩
    exact (take_len_eq_iff _ p).mpr ⟨b, rfl⟩

end StringLemmas

/-- An `if` on a `Bool` returning `some`-or-`none` hits `some x` exactly when
the condition holds. -/
theorem ite_some_none_eq_some {α : Type} {b : Bool} {x : α} :
    (if b then some x else none) = some x ↔ b = true := by
  cases b <;> simp

/-- A pattern wrapped in `%` compiles the substring-shaped expression. -/
theorem likeRegexSrc_both (pat : String)
    (h1 : startsWithL pat.toList ['%'] = true) (h2 : endsWithL pat.toList ['%'] = true) :
    likeRegexSrc pat = some ("^.*(" ++ escapeDots (stripPercent pat) ++ ").*$") := by
  simp only [likeRegexSrc, h1, h2, Bool.and_self, Bool.false_and, Bool.and_false,
    Bool.false_eq_true, if_true, if_false]

/-- A pattern ending (only) in `%` compiles the start-anchored expression. -/
theorem likeRegexSrc_endOnly (pat : String)
    (h1 : startsWithL pat.toList ['%'] = false) (h2 : endsWithL pat.toList ['%'] = true) :
    likeRegexSrc pat = some ("^(" ++ escapeDots (stripPercent pat) ++ ").*$") := by
  simp only [likeRegexSrc, h1, h2, Bool.and_self, Bool.false_and, Bool.and_false,
    Bool.false_eq_true, if_true, if_false]

/-- A pattern starting (only) with `%` compiles the end-anchored expression. -/
theorem likeRegexSrc_beginOnly (pat : String)
    (h1 : startsWithL pat.toList ['%'] = true) (h2 : endsWithL pat.toList ['%'] = false) :
    likeRegexSrc pat = some ("^.*(" ++ escapeDots (stripPercent pat) ++ ")$") := by
  simp only [likeRegexSrc, h1, h2, Bool.and_self, Bool.false_and, Bool.and_false,
    Bool.false_eq_true, if_true, if_false]

/-- A pattern without leading or trailing `%` builds no expression. -/
theorem likeRegexSrc_noPercent (pat : String)
    (h1 : startsWithL pat.toList ['%'] = false) (h2 : endsWithL pat.toList ['%'] = false) :
    likeRegexSrc pat = none := by
  simp only [likeRegexSrc, h1, h2, Bool.and_self, Bool.false_and, Bool.and_false,
    Bool.false_eq_true, if_true, if_false]

/-- Once a source string is selected, the LIKE operator's outcome is decided
by the engine: a `SyntaxError` aborts, otherwise the compiled test applied
to the field decides the row. -/
theorem executeLikeOperation_compiled (R : RegExpLib) (data header : List String)
    (c pat f : String) (hfield : fieldAt data header c = some f) (src : String)
    (hsrc : likeRegexSrc pat = some src) :
    (R.compile src = none →
      executeLikeOperation R data header c pat = .error (.invalidRegex src))
    ∧ (∀ t, R.compile src = some t →
        executeLikeOperation R data header c pat
          = (if t f then .ok (some data) else .ok none)) := by
  constructor
  · intro hcomp
    simp [executeLikeOperation, hfield, hsrc, hcomp]
  · intro t hcomp
    simp [executeLikeOperation, hfield, hsrc, hcomp]

/-- Counterexample to claim C5: the source escapes only `.` in the pattern
body, so other regex metacharacters stay active.  Under the JavaScript
behaviour of `^.*(a|b).*$` (recorded by `jsAlternation`), the LIKE pattern
`%a|b%` matches the field `"a"`, although the field does not contain the
stripped pattern body `a|b` as a substring, contradicting the claim's
substring characterization. -/
theorem claim_C5_cex :
    executeLikeOperation jsAlternation ["a"] ["c"] "c" "%a|b%" = .ok (some ["a"]) ∧
    containsL "a".toList (stripPercent "%a|b%").toList = false := by
  exact ⟨by decide, by decide⟩

/-- Claim C5 as amended: the LIKE operator compiles `^.*(body).*$`,
`^(body).*$` or `^.*(body)$` — `body` being the pattern with every `%`
removed and each `.` escaped — according to the pattern's `%` markers, and
returns the row iff the compiled test accepts the field; an invalid body is
a fatal regex `SyntaxError`.  Whenever the compiled test agrees on the field
with the literal reading of the body (as the JavaScript expression does when
the body has no metacharacters beyond the escaped dots), the row matches iff
the field contains / starts with / ends with the stripped body respectively;
a pattern with no leading or trailing `%` builds no expression and never
matches any row. -/
theorem claim_C5_amended (R : RegExpLib) (data header : List String) (c pat f : String)
    (hfield : fieldAt data header c = some f) :
    ((startsWithL pat.toList ['%'] = true ∧ endsWithL pat.toList ['%'] = true) →
      likeRegexSrc pat = some ("^.*(" ++ escapeDots (stripPercent pat) ++ ").*$")
      ∧ ∀ t, R.compile ("^.*(" ++ escapeDots (stripPercent pat) ++ ").*$") = some t →
          executeLikeOperation R data header c pat
            = (if t f then .ok (some data) else .ok none)
          ∧ ((t f = true ↔ ∃ a b, f.toList = a ++ (stripPercent pat).toList ++ b) →
            (executeLikeOperation R data header c pat = .ok (some data) ↔
              ∃ a b, f.toList = a ++ (stripPercent pat).toList ++ b)))
    ∧ ((startsWithL pat.toList ['%'] = false ∧ endsWithL pat.toList ['%'] = true) →
      likeRegexSrc pat = some ("^(" ++ escapeDots (stripPercent pat) ++ ").*$")
      ∧ ∀ t, R.compile ("^(" ++ escapeDots (stripPercent pat) ++ ").*$") = some t →
          executeLikeOperation R data header c pat
            = (if t f then .ok (some data) else .ok none)
          ∧ ((t f = true ↔ ∃ b, f.toList = (stripPercent pat).toList ++ b) →
            (executeLikeOperation R data header c pat = .ok (some data) ↔
              ∃ b, f.toList = (stripPercent pat).toList ++ b)))
    ∧ ((startsWithL pat.toList ['%'] = true ∧ endsWithL pat.toList ['%'] = false) →
      likeRegexSrc pat = some ("^.*(" ++ escapeDots (stripPercent pat) ++ ")$")
      ∧ ∀ t, R.compile ("^.*(" ++ escapeDots (stripPercent pat) ++ ")$") = some t →
          executeLikeOperation R data header c pat
            = (if t f then .ok (some data) else .ok none)
          ∧ ((t f = true ↔ ∃ a, f.toList = a ++ (stripPercent pat).toList) →
            (executeLikeOperation R data header c pat = .ok (some data) ↔
              ∃ a, f.toList = a ++ (stripPercent pat).toList)))
    ∧ ((startsWithL pat.toList ['%'] = false ∧ endsWithL pat.toList ['%'] = false) →
      executeLikeOperation R data header c pat = .ok none)
    ∧ (∀ src, likeRegexSrc pat = some src → R.compile src = none →
      executeLikeOperation R data header c pat = .error (.invalidRegex src)) := by
  have step : ∀ src, likeRegexSrc pat = some src →
      ∀ t, R.compile src = some t →
        executeLikeOperation R data header c pat
          = (if t f then .ok (some data) else .ok none) :=
    fun src hsrc t hcomp =>
      (executeLikeOperation_compiled R data header c pat f hfield src hsrc).2 t hcomp
  have agree : ∀ (P : Prop) (t : String → Bool),
      executeLikeOperation R data header c pat = (if t f then .ok (some data) else .ok none) →
      (t f = true ↔ P) →
      (executeLikeOperation R data header c pat = .ok (some data) ↔ P) := by
    intro P t hb hagree
    cases ht : t f with
    | true =>
      refine iff_of_true ?_ (hagree.mp ht)
      rw [hb]
      simp [ht]
    | false =>
      refine iff_of_false ?_ ?_
      · rw [hb]
        simp [ht]
      · intro hex
        have hcon := hagree.mpr hex
        rw [ht] at hcon
        exact absurd hcon (by simp)
  refine ⟨?_, ?_, ?_, ?_, ?_⟩
  · rintro ⟨h1, h2⟩
    have hsrc := likeRegexSrc_both pat h1 h2
    refine ⟨hsrc, fun t hcomp => ?_⟩
    have hb := step _ hsrc t hcomp
    exact ⟨hb, fun hagree => agree _ t hb hagree⟩
  · rintro ⟨h1, h2⟩
    have hsrc := likeRegexSrc_endOnly pat h1 h2
    refine ⟨hsrc, fun t hcomp => ?_⟩
    have hb := step _ hsrc t hcomp
    exact ⟨hb, fun hagree => agree _ t hb hagree⟩
  · rintro ⟨h1, h2⟩
    have hsrc := likeRegexSrc_beginOnly pat h1 h2
    refine ⟨hsrc, fun t hcomp => ?_⟩
    have hb := step _ hsrc t hcomp
    exact ⟨hb, fun hagree => agree _ t hb hagree⟩
  · rintro ⟨h1, h2⟩
    simp [executeLikeOperation, hfield, likeRegexSrc_noPercent pat h1 h2]
  · intro src hsrc hcomp
    exact (executeLikeOperation_compiled R data header c pat f hfield src hsrc).1 hcomp

/-- Concrete instantiation of the amended claim C5 under the sample engine:
`%abc%` matches `xabcy`, `abc%` matches `abcy`, a `%`-free pattern matches
nothing, and the invalid body of `%(%` raises the regex error. -/
theorem claim_C5_witness :
    fieldAt ["xabcy"] ["a"] "a" = some "xabcy" ∧
    executeLikeOperation sampleRegExp ["xabcy"] ["a"] "a" "%abc%" = .ok (some ["xabcy"]) ∧
    executeLikeOperation sampleRegExp ["abcy"] ["a"] "a" "abc%" = .ok (some ["abcy"]) ∧
    executeLikeOperation sampleRegExp ["abc"] ["a"] "a" "abc" = .ok none ∧
    executeLikeOperation sampleRegExp ["x"] ["a"] "a" "%(%"
      = .error (.invalidRegex "^.*(().*$") := by
  refine ⟨by decide, ?_, ?_, ?_, ?_⟩
  · exact ((((claim_C5_amended sampleRegExp ["xabcy"] ["a"] "a" "%abc%" "xabcy"
        (by decide)).1 ⟨by decide, by decide⟩).2
        (fun s => containsL s.toList ['a', 'b', 'c']) rfl).2
      (containsL_iff "xabcy".toList ['a', 'b', 'c'])).mpr ⟨['x'], ['y'], by decide⟩
  · exact ((((claim_C5_amended sampleRegExp ["abcy"] ["a"] "a" "abc%" "abcy"
        (by decide)).2.1 ⟨by decide, by decide⟩).2
        (fun s => startsWithL s.toList ['a', 'b', 'c']) rfl).2
      (startsWithL_iff "abcy".toList ['a', 'b', 'c'])).mpr ⟨['y'], by decide⟩
  · exact (claim_C5_amended sampleRegExp ["abc"] ["a"] "a" "abc" "abc"
      (by decide)).2.2.2.1 ⟨by decide, by decide⟩
  · exact (claim_C5_amended sampleRegExp ["x"] ["a"] "a" "%(%" "x"
      (by decide)).2.2.2.2 "^.*(().*$" (by decide) rfl

/-- An `if` on a `Bool` returning `some`-or-`none` returns `some x` or
`none`, never anything else. -/
theorem ite_some_none_cases {α : Type} (b : Bool) (x : α) :
    ((if b then some x else none) = some x) ∨ ((if b then some x else none) = none) := by
  cases b <;> simp

/-- Claim C6: the equality operator coerces the field to the literal's type:
a numeric literal matches iff the field `parseInt`s to it, boolean `true`
matches only the exact field `"true"`, any other literal compares as a raw
string, and a mismatch is absence, never an error. -/
theorem claim_C6 (data header : List String) (c : String) (f : String)
    (hfield : fieldAt data header c = some f) :
    (∀ n : Int, executeEqualOperation data header c (.num n) = some data ↔ parseIntJS f = some n)
    ∧ (executeEqualOperation data header c (.bool true) = some data ↔ f = "true")
    ∧ (∀ s, executeEqualOperation data header c (.str s) = some data ↔ f = s)
    ∧ (∀ v, executeEqualOperation data header c v = some data ∨
        executeEqualOperation data header c v = none) := by
  refine ⟨?_, ?_, ?_, ?_⟩
  · intro n
    simp only [executeEqualOperation, hfield]
    rw [ite_some_none_eq_some]
    simp
  · simp only [executeEqualOperation, hfield]
    rw [ite_some_none_eq_some]
    simp
  · intro s
    simp only [executeEqualOperation, hfield]
    rw [ite_some_none_eq_some]
    simp
  · intro v
    simp only [executeEqualOperation]
    exact ite_some_none_cases _ _

/-- Concrete instantiation of claim C6: literal `5` matches `"5"` and `"05"`;
boolean `true` matches neither `"True"` nor `"1"`. -/
theorem claim_C6_witness :
    fieldAt ["05"] ["a"] "a" = some "05" ∧
    executeEqualOperation ["05"] ["a"] "a" (.num 5) = some ["05"] ∧
    executeEqualOperation ["5"] ["a"] "a" (.num 5) = some ["5"] ∧
    ¬ executeEqualOperation ["True"] ["a"] "a" (.bool true) = some ["True"] ∧
    ¬ executeEqualOperation ["1"] ["a"] "a" (.bool true) = some ["1"] := by
  refine ⟨by decide, ?_, ?_, ?_, ?_⟩
  · exact ((claim_C6 ["05"] ["a"] "a" "05" (by decide)).1 5).mpr (by decide)
  · exact ((claim_C6 ["5"] ["a"] "a" "5" (by decide)).1 5).mpr (by decide)
  · intro h
    exact absurd ((claim_C6 ["True"] ["a"] "a" "True" (by decide)).2.1.mp h) (by decide)
  · intro h
    exact absurd ((claim_C6 ["1"] ["a"] "a" "1" (by decide)).2.1.mp h) (by decide)

/-- A semver interface instance with concrete behaviour, used to instantiate
the parameterized theorems. -/
def sampleSemver : SemverLib :=
  { valid := fun s => s == "1.2.3"
    validRange := fun s => s == ">=1.0.0 <2.0.0"
    coerceOk := fun n => 0 ≤ n
    satisfies := fun f r => f == "1.2.3" && r == ">=1.0.0 <2.0.0" }

/-- Claim C4: for `VERSION_MATCH`, an invalid field version is a silent
per-row exclusion checked before the operand; an invalid string range or an
uncoercible number operand is a fatal `InvalidVersionOperand`; otherwise
`satisfies` decides the row. -/
theorem claim_C4 (S : SemverLib) (data header : List String) (c : String) (f : String)
    (hfield : fieldAt data header c = some f) :
    (S.valid f = false → ∀ v, executeSemverOperation S data header c v = .ok none)
    ∧ (∀ s, S.valid f = true → S.validRange s = false →
        executeSemverOperation S data header c (.str s) = .error (.invalidVersionOperand s))
    ∧ (∀ n : Int, S.valid f = true → S.coerceOk n = false →
        executeSemverOperation S data header c (.num n)
          = .error (.invalidVersionOperand (toString n)))
    ∧ (∀ s, S.valid f = true → S.validRange s = true →
        executeSemverOperation S data header c (.str s)
          = .ok (if S.satisfies f s then some data else none))
    ∧ (∀ n : Int, S.valid f = true → S.coerceOk n = true →
        executeSemverOperation S data header c (.num n)
          = .ok (if S.satisfies f (toString n) then some data else none)) := by
  refine ⟨?_, ?_, ?_, ?_, ?_⟩
  · intro hv v
    simp [executeSemverOperation, hfield, hv]
  · intro s hv hr
    simp [executeSemverOperation, hfield, hv, hr, jsString]
  · intro n hv hn
    simp [executeSemverOperation, hfield, hv, hn, jsString]
  · intro s hv hr
    cases hS : S.satisfies f s <;>
      simp [executeSemverOperation, hfield, hv, hr, hS, jsString]
  · intro n hv hn
    cases hS : S.satisfies f (toString n) <;>
      simp [executeSemverOperation, hfield, hv, hn, hS, jsString]

/-- Concrete instantiation of claim C4: an invalid field version is silently
excluded even under an invalid range; an invalid range under a valid field
throws; a valid pair is decided by `satisfies`. -/
theorem claim_C4_witness :
    fieldAt ["not-a-version"] ["v"] "v" = some "not-a-version" ∧
    executeSemverOperation sampleSemver ["not-a-version"] ["v"] "v" (.str "not-a-range")
      = .ok none ∧
    executeSemverOperation sampleSemver ["1.2.3"] ["v"] "v" (.str "not-a-range")
      = .error (.invalidVersionOperand "not-a-range") ∧
    executeSemverOperation sampleSemver ["1.2.3"] ["v"] "v" (.str ">=1.0.0 <2.0.0")
      = .ok (if sampleSemver.satisfies "1.2.3" ">=1.0.0 <2.0.0" then some ["1.2.3"] else none) := by
  refine ⟨by decide, ?_, ?_, ?_⟩
  · exact (claim_C4 sampleSemver ["not-a-version"] ["v"] "v" "not-a-version"
      (by decide)).1 (by decide) (.str "not-a-range")
  · exact (claim_C4 sampleSemver ["1.2.3"] ["v"] "v" "1.2.3" (by decide)).2.1
      "not-a-range" (by decide) (by decide)
  · exact (claim_C4 sampleSemver ["1.2.3"] ["v"] "v" "1.2.3" (by decide)).2.2.2.1
      ">=1.0.0 <2.0.0" (by decide) (by decide)

/-- No filtering operation rewrites the row: `executeEqualOperation` returns
the input row when it matches. -/
theorem executeEqualOperation_id (data header : List String) (c : String) (v : SQLValue)
    (r : Row) (h : executeEqualOperation data header c v = some r) : r = data := by
  simp only [executeEqualOperation] at h
  split at h
  · exact (Option.some.inj h).symm
  · exact Option.noConfusion h

/-- An `if` on a `Bool` returning `some`-or-`none` only ever returns the
`some` of its own branch value. -/
theorem ite_some_none_inj {α : Type} {b : Bool} {x y : α}
    (h : (if b then some x else none) = some y) : y = x := by
  cases b
  · simp at h
  · simp only [if_true] at h
    exact (Option.some.inj h).symm

/-- `executeLikeOperation` returns the input row when it matches. -/
theorem executeLikeOperation_id (R : RegExpLib) (data header : List String) (c : String)
    (v : String) (r : Row)
    (h : executeLikeOperation R data header c v = .ok (some r)) : r = data := by
  simp only [executeLikeOperation] at h
  cases hsrc : likeRegexSrc v with
  | none => simp [hsrc] at h
  | some src =>
    simp only [hsrc] at h
    cases hcomp : R.compile src with
    | none => simp [hcomp] at h
    | some t =>
      simp only [hcomp] at h
      cases ht : t ((fieldAt data header c).getD "undefined") with
      | false => simp [ht] at h
      | true =>
        simp only [ht, if_true] at h
        simp only [Except.ok.injEq, Option.some.injEq] at h
        exact h.symm

/-- `executeSemverOperation` returns the input row when it matches. -/
theorem executeSemverOperation_id (S : SemverLib) (data header : List String) (c : String)
    (v : SQLValue) (r : Row)
    (h : executeSemverOperation S data header c v = .ok (some r)) : r = data := by
  simp only [executeSemverOperation] at h
  split at h
  · simp at h
  · split at h
    · exact Except.noConfusion h
    · split at h
      · simp only [Except.ok.injEq, Option.some.injEq] at h
        exact h.symm
      · simp at h

/-- The row returned by a matching `WHERE` evaluation is the input row
unchanged — the threading contract behind the `AND` combinator. -/
theorem evalWhere_id (S : SemverLib) (R : RegExpLib) (e : WhereExpr) :
    ∀ (data : Row) (header : List String) (r : Row),
      evalWhere S R e data header = .ok (some r) → r = data := by
  induction e with
  | eqOp c v =>
    intro data header r h
    simp only [evalWhere, Except.ok.injEq] at h
    exact executeEqualOperation_id data header c v r h
  | likeOp c v =>
    intro data header r h
    simp only [evalWhere] at h
    exact executeLikeOperation_id R data header c v r h
  | semverOp c v =>
    intro data header r h
    simp only [evalWhere] at h
    exact executeSemverOperation_id S data header c v r h
  | andOp q1 q2 ih1 ih2 =>
    intro data header r h
    simp only [evalWhere] at h
    cases hL : evalWhere S R q1 data header with
    | error e => rw [hL] at h; exact Except.noConfusion h
    | ok o =>
      rw [hL] at h
      cases o with
      | none => simp at h
      | some res =>
        have h2 := ih2 res header r h
        have h1 := ih1 data header res hL
        rw [h2, h1]
  | orOp q1 q2 ih1 ih2 =>
    intro data header r h
    simp only [evalWhere] at h
    cases hL : evalWhere S R q1 data header with
    | error e => rw [hL] at h; exact Except.noConfusion h
    | ok o =>
      rw [hL] at h
      cases o with
      | none => exact ih2 data header r h
      | some res =>
        simp only [Except.ok.injEq, Option.some.injEq] at h
        rw [← h]
        exact ih1 data header res hL

/-- The top-level operation returns the input row when it matches. -/
theorem evalOp_id (S : SemverLib) (R : RegExpLib) (w : Option WhereExpr) (data : Row)
    (header : List String) (r : Row) (h : evalOp S R w data header = .ok (some r)) :
    r = data := by
  cases w with
  | none =>
    simp only [evalOp, Except.ok.injEq, Option.some.injEq] at h
    exact h.symm
  | some e => exact evalWhere_id S R e data header r h

/-- Claim C7: `AND(p1, p2)` matches a row iff both sub-predicates match it
independently (the row threaded from the left branch is the input row);
`OR(p1, p2)` returns the left result without evaluating the right branch
when the left matches, evaluates the right branch against the original row
when the left is absent, and matches iff either does. -/
theorem claim_C7 (S : SemverLib) (R : RegExpLib) (p1 p2 : WhereExpr) (data : Row) (header : List String) :
    (∀ (e : WhereExpr) (r : Row), evalWhere S R e data header = .ok (some r) → r = data)
    ∧ (evalWhere S R (.andOp p1 p2) data header = .ok (some data) ↔
        (evalWhere S R p1 data header = .ok (some data) ∧
         evalWhere S R p2 data header = .ok (some data)))
    ∧ (evalWhere S R p1 data header = .ok (some data) →
        evalWhere S R (.orOp p1 p2) data header = .ok (some data))
    ∧ (evalWhere S R p1 data header = .ok none →
        evalWhere S R (.orOp p1 p2) data header = evalWhere S R p2 data header)
    ∧ (evalWhere S R (.orOp p1 p2) data header = .ok (some data) ↔
        (evalWhere S R p1 data header = .ok (some data) ∨
         (evalWhere S R p1 data header = .ok none ∧
          evalWhere S R p2 data header = .ok (some data)))) := by
  refine ⟨fun e r h => evalWhere_id S R e data header r h, ?_, ?_, ?_, ?_⟩
  · constructor
    · intro h
      simp only [evalWhere] at h
      cases hL : evalWhere S R p1 data header with
      | error e => rw [hL] at h; exact Except.noConfusion h
      | ok o =>
        rw [hL] at h
        cases o with
        | none => simp at h
        | some res =>
          have hres : res = data := evalWhere_id S R p1 data header res hL
          subst hres
          exact ⟨rfl, h⟩
    · rintro ⟨h1, h2⟩
      simp only [evalWhere]
      rw [h1]
      exact h2
  · intro h1
    simp only [evalWhere]
    rw [h1]
  · intro h1
    simp only [evalWhere]
    rw [h1]
  · constructor
    · intro h
      simp only [evalWhere] at h
      cases hL : evalWhere S R p1 data header with
      | error e => rw [hL] at h; exact Except.noConfusion h
      | ok o =>
        rw [hL] at h
        cases o with
        | none => exact Or.inr ⟨rfl, h⟩
        | some res => exact Or.inl h
    · rintro (h1 | ⟨h1, h2⟩)
      · simp only [evalWhere]
        rw [h1]
      · simp only [evalWhere]
        rw [h1]
        exact h2

/-- Concrete instantiation of claim C7: an `AND` of two matching predicates
matches; an `OR` whose left is absent is decided by its right branch. -/
theorem claim_C7_witness :
    evalWhere trivialSemver sampleRegExp (.andOp (.eqOp "a" (.str "x")) (.likeOp "a" "%x%")) ["x"] ["a"]
      = .ok (some ["x"]) ∧
    evalWhere trivialSemver sampleRegExp (.orOp (.eqOp "a" (.str "y")) (.likeOp "a" "%x%")) ["x"] ["a"]
      = .ok (some ["x"]) := by
  constructor
  · exact (claim_C7 trivialSemver sampleRegExp (.eqOp "a" (.str "x")) (.likeOp "a" "%x%")
      ["x"] ["a"]).2.1.mpr ⟨by decide, by decide⟩
  · exact (claim_C7 trivialSemver sampleRegExp (.eqOp "a" (.str "y")) (.likeOp "a" "%x%")
      ["x"] ["a"]).2.2.2.2.mpr (Or.inr ⟨by decide, by decide⟩)

/-- Counterexample to claim C10: with a left operand naming a column absent
from the header, the LIKE operator does not exclude the row — the missing
field stringifies to `"undefined"`, which the compiled pattern `%undefined%`
matches, so the row is returned. -/
theorem claim_C10_cex :
    (["a"].findIdx? (fun v => v == "b") = none) ∧
    executeLikeOperation sampleRegExp ["x"] ["a"] "b" "%undefined%" = .ok (some ["x"]) := by
  exact ⟨by decide, by decide⟩

/-- Claim C10 as amended: against a missing column, `VERSION_MATCH` silently
excludes the row (before any operand validation) and equality against a
string or numeric literal silently excludes the row, neither raising an
error; `LIKE` stringifies the `undefined` field read to the literal string
`"undefined"` and otherwise behaves exactly as on a row whose field is that
string — it returns the row when the compiled pattern matches `"undefined"`,
excludes it when it does not, and raises for an invalid pattern body the
same regex `SyntaxError` it raises on every row, the missing column adding
no error of its own. -/
theorem claim_C10_amended (S : SemverLib) (R : RegExpLib) (data header : List String)
    (c : String) (hcol : header.findIdx? (fun v => v == c) = none) :
    (∀ v, executeSemverOperation S data header c v = .ok none)
    ∧ (∀ n : Int, executeEqualOperation data header c (.num n) = none)
    ∧ (∀ s, executeEqualOperation data header c (.str s) = none)
    ∧ (∀ pat, executeLikeOperation R data header c pat
        = Except.map (Option.map (fun _ => data))
            (executeLikeOperation R ["undefined"] ["u"] "u" pat)) := by
  have hf : fieldAt data header c = none := by
    simp [fieldAt, hcol]
  have hrf : fieldAt ["undefined"] ["u"] "u" = some "undefined" := by decide
  refine ⟨?_, ?_, ?_, ?_⟩
  · intro v
    simp [executeSemverOperation, hf]
  · intro n
    simp [executeEqualOperation, hf]
  · intro s
    simp [executeEqualOperation, hf]
  · intro pat
    cases hsrc : likeRegexSrc pat with
    | none =>
      have hL : executeLikeOperation R data header c pat = .ok none := by
        simp [executeLikeOperation, hsrc]
      have hR : executeLikeOperation R ["undefined"] ["u"] "u" pat = .ok none := by
        simp [executeLikeOperation, hsrc]
      rw [hL, hR]
      rfl
    | some src =>
      cases hcomp : R.compile src with
      | none =>
        have hL : executeLikeOperation R data header c pat
            = .error (.invalidRegex src) := by
          simp [executeLikeOperation, hsrc, hcomp]
        have hR : executeLikeOperation R ["undefined"] ["u"] "u" pat
            = .error (.invalidRegex src) := by
          simp [executeLikeOperation, hsrc, hcomp]
        rw [hL, hR]
        rfl
      | some t =>
        have hL : executeLikeOperation R data header c pat
            = (if t "undefined" then .ok (some data) else .ok none) := by
          simp [executeLikeOperation, hf, hsrc, hcomp]
        have hR : executeLikeOperation R ["undefined"] ["u"] "u" pat
            = (if t "undefined" then .ok (some ["undefined"]) else .ok none) := by
          simp [executeLikeOperation, hrf, hsrc, hcomp]
        rw [hL, hR]
        cases ht : t "undefined" with
        | false => simp [Except.map]
        | true => simp [Except.map]

/-- Concrete instantiation of the amended claim C10 at a missing column. -/
theorem claim_C10_witness :
    (["a"].findIdx? (fun v => v == "zzz") = none) ∧
    executeSemverOperation trivialSemver ["x"] ["a"] "zzz" (.str "nope") = .ok none ∧
    executeEqualOperation ["x"] ["a"] "zzz" (.num 5) = none ∧
    executeEqualOperation ["x"] ["a"] "zzz" (.str "x") = none ∧
    executeLikeOperation sampleRegExp ["x"] ["a"] "zzz" "%no-match%" = .ok none := by
  have H := claim_C10_amended trivialSemver sampleRegExp ["x"] ["a"] "zzz" (by decide)
  refine ⟨by decide, H.1 (.str "nope"), H.2.1 5, H.2.2.1 "x", ?_⟩
  rw [H.2.2.2 "%no-match%"]
  decide

section Pagination

/-- One loop step on a row of the wrong width aborts with the current line. -/
theorem runRows_cons_bad (op : Row → Except QueryError (Option Row))
    (hdrLen limit start endV : Nat) (r : Row) (rest : List Row)
    (line total : Nat) (result : List Row) (h : r.length ≠ hdrLen) :
    runRows op hdrLen limit start endV (r :: rest) line total result
      = .error (.rowShapeMismatch line) := by
  simp only [runRows]
  rw [if_pos (by omega)]

/-- One loop step on a rejected row leaves the accumulator unchanged. -/
theorem runRows_cons_none (op : Row → Except QueryError (Option Row))
    (hdrLen limit start endV : Nat) (r : Row) (rest : List Row)
    (line total : Nat) (result : List Row)
    (hlen : r.length = hdrLen) (hop : op r = .ok none) :
    runRows op hdrLen limit start endV (r :: rest) line total result
      = runRows op hdrLen limit start endV rest (line + 1) total result := by
  simp only [runRows, hop]
  rw [if_neg (by omega)]

/-- One loop step on an accepted row under the discard condition counts the
match but drops the row. -/
theorem runRows_cons_stop (op : Row → Except QueryError (Option Row))
    (hdrLen limit start endV : Nat) (r d : Row) (rest : List Row)
    (line total : Nat) (result : List Row)
    (hlen : r.length = hdrLen) (hop : op r = .ok (some d))
    (hC : result.length = limit ∨ (start ≠ 0 ∧ total < start) ∨ total > endV) :
    runRows op hdrLen limit start endV (r :: rest) line total result
      = runRows op hdrLen limit start endV rest (line + 1) (total + 1) result := by
  simp only [runRows, hop]
  rw [if_neg (by omega), if_pos hC]

/-- One loop step on an accepted row inside the window counts the match and
appends the returned row to the page buffer. -/
theorem runRows_cons_push (op : Row → Except QueryError (Option Row))
    (hdrLen limit start endV : Nat) (r d : Row) (rest : List Row)
    (line total : Nat) (result : List Row)
    (hlen : r.length = hdrLen) (hop : op r = .ok (some d))
    (hC : ¬ (result.length = limit ∨ (start ≠ 0 ∧ total < start) ∨ total > endV)) :
    runRows op hdrLen limit start endV (r :: rest) line total result
      = runRows op hdrLen limit start endV rest (line + 1) (total + 1) (result ++ [d]) := by
  simp only [runRows, hop]
  rw [if_neg (by omega), if_neg hC]

/-- An accepted head row is kept by the filter. -/
theorem acceptedOf_cons_pos (op : Row → Except QueryError (Option Row)) (r : Row)
    (rest : List Row) (d : Row) (hop : op r = .ok (some d)) :
    acceptedOf op (r :: rest) = r :: acceptedOf op rest := by
  simp [acceptedOf, List.filter_cons, isAccepted, hop]

/-- A rejected head row is dropped by the filter. -/
theorem acceptedOf_cons_neg (op : Row → Except QueryError (Option Row)) (r : Row)
    (rest : List Row) (hop : op r = .ok none) :
    acceptedOf op (r :: rest) = acceptedOf op rest := by
  simp [acceptedOf, List.filter_cons, isAccepted, hop]

/-- Appending one more accepted row does not change the page window when the
discard condition fires: the buffer is full, the accepted count is still
before the window, or it is past the window. -/
theorem page_window_snoc_stop (acc : List Row) (r : Row) (start limit : Nat)
    (h : ((acc.drop start).take limit).length = limit ∨
         (start ≠ 0 ∧ acc.length < start) ∨ acc.length > start + limit) :
    ((acc ++ [r]).drop start).take limit = (acc.drop start).take limit := by
  have hfull : limit ≤ acc.length - start ∨ (start ≠ 0 ∧ acc.length < start) := by
    rcases h with h | h | h
    · left
      rw [List.length_take, List.length_drop] at h
      omega
    · right; exact h
    · left; omega
  rcases hfull with hle | ⟨hs, hlt⟩
  · by_cases hsl : start ≤ acc.length
    · rw [List.drop_append_of_le_length hsl,
        List.take_append_of_le_length (by rw [List.length_drop]; omega)]
    · have h0 : limit = 0 := by omega
      subst h0
      simp
  · have e1 : List.drop start (acc ++ [r]) = [] :=
      List.drop_eq_nil_of_le (by simp; omega)
    have e2 : List.drop start acc = [] := List.drop_eq_nil_of_le (by omega)
    rw [e1, e2]

/-- Appending one more accepted row extends the page window by that row when
the discard condition does not fire. -/
theorem page_window_snoc_push (acc : List Row) (r : Row) (start limit : Nat)
    (hfull : ¬ ((acc.drop start).take limit).length = limit)
    (hbefore : ¬ (start ≠ 0 ∧ acc.length < start)) :
    ((acc ++ [r]).drop start).take limit = (acc.drop start).take limit ++ [r] := by
  have hsl : start ≤ acc.length := by
    by_contra hcon
    push_neg at hcon
    exact hbefore ⟨by omega, by omega⟩
  have hlt : acc.length - start < limit := by
    rw [List.length_take, List.length_drop] at hfull
    omega
  rw [List.drop_append_of_le_length hsl,
    List.take_of_length_le (by simp [List.length_drop]; omega),
    List.take_of_length_le (by rw [List.length_drop]; omega)]

/-- Invariant of the streaming loop: starting from an accumulator that
already reflects a list `acc` of previously accepted rows, when every
remaining row is well-shaped and the predicate never throws, the loop returns
the count of all accepted rows together with the `[start, start + limit)`
window of them. -/
theorem runRows_eq (op : Row → Except QueryError (Option Row)) (hdrLen limit start : Nat)
    (hid : ∀ r d, op r = .ok (some d) → d = r) :
    ∀ (rows : List Row), (∀ r ∈ rows, r.length = hdrLen) →
      (∀ r ∈ rows, isOkB (op r) = true) →
    ∀ (line : Nat) (acc : List Row),
      runRows op hdrLen limit start (start + limit) rows line acc.length
          ((acc.drop start).take limit)
        = .ok ((acc ++ acceptedOf op rows).length,
               ((acc ++ acceptedOf op rows).drop start).take limit) := by
  intro rows
  induction rows with
  | nil =>
    intro _ _ line acc
    simp [runRows, acceptedOf]
  | cons r rest ih =>
    intro hlen hok line acc
    have hrlen : r.length = hdrLen := hlen r (by simp)
    have hrok : isOkB (op r) = true := hok r (by simp)
    have hlenr : ∀ x ∈ rest, x.length = hdrLen := fun x hx => hlen x (by simp [hx])
    have hokr : ∀ x ∈ rest, isOkB (op x) = true := fun x hx => hok x (by simp [hx])
    cases hop : op r with
    | error e => rw [hop] at hrok; simp [isOkB] at hrok
    | ok o =>
      cases o with
      | none =>
        rw [runRows_cons_none op hdrLen limit start (start + limit) r rest line acc.length
          ((acc.drop start).take limit) hrlen hop]
        rw [acceptedOf_cons_neg op r rest hop]
        exact ih hlenr hokr (line + 1) acc
      | some d =>
        have hd : d = r := hid r d hop
        subst hd
        rw [acceptedOf_cons_pos op d rest d hop]
        have hjoin : acc ++ d :: acceptedOf op rest = (acc ++ [d]) ++ acceptedOf op rest := by
          simp
        rw [hjoin]
        simp only [List.length_append, List.length_singleton]
        by_cases hC : ((acc.drop start).take limit).length = limit ∨
            (start ≠ 0 ∧ acc.length < start) ∨ acc.length > start + limit
        · rw [runRows_cons_stop op hdrLen limit start (start + limit) d d rest line acc.length
            ((acc.drop start).take limit) hrlen hop hC]
          have hrec := ih hlenr hokr (line + 1) (acc ++ [d])
          simp only [List.length_append, List.length_singleton] at hrec
          rw [page_window_snoc_stop acc d start limit hC] at hrec
          exact hrec
        · rw [runRows_cons_push op hdrLen limit start (start + limit) d d rest line acc.length
            ((acc.drop start).take limit) hrlen hop hC]
          have h1 : ¬ ((acc.drop start).take limit).length = limit := fun h => hC (Or.inl h)
          have h2 : ¬ (start ≠ 0 ∧ acc.length < start) := fun h => hC (Or.inr (Or.inl h))
          have hrec := ih hlenr hokr (line + 1) (acc ++ [d])
          simp only [List.length_append, List.length_singleton] at hrec
          rw [page_window_snoc_push acc d start limit h1 h2] at hrec
          exact hrec

/-- The streaming loop halts with `rowShapeMismatch` at the first row whose
field count differs from the header's, citing that row's file line. -/
theorem runRows_shape_error (op : Row → Except QueryError (Option Row))
    (hdrLen limit start endV : Nat) :
    ∀ (rows : List Row) (k : Nat) (bad : Row),
      rows.get? k = some bad → bad.length ≠ hdrLen →
      (rows.take k).all (fun r => r.length == hdrLen) = true →
      (rows.take k).all (fun r => isOkB (op r)) = true →
    ∀ (line total : Nat) (result : List Row),
      runRows op hdrLen limit start endV rows line total result
        = .error (.rowShapeMismatch (line + k)) := by
  intro rows
  induction rows with
  | nil =>
    intro k bad hget
    simp at hget
  | cons r rest ih =>
    intro k bad hget hbad hall hok line total result
    cases k with
    | zero =>
      simp only [List.get?] at hget
      have hr : r = bad := Option.some.inj hget
      subst hr
      rw [runRows_cons_bad op hdrLen limit start endV r rest line total result hbad]
      simp
    | succ k' =>
      simp only [List.take_succ_cons, List.all_cons, Bool.and_eq_true, beq_iff_eq] at hall hok
      have hget' : rest.get? k' = some bad := hget
      have harith : line + (k' + 1) = (line + 1) + k' := by omega
      rw [harith]
      cases hop : op r with
      | error e => rw [hop] at hok; simp [isOkB] at hok
      | ok o =>
        cases o with
        | none =>
          rw [runRows_cons_none op hdrLen limit start endV r rest line total result hall.1 hop]
          exact ih k' bad hget' hbad hall.2 hok.2 (line + 1) total result
        | some d =>
          by_cases hC : result.length = limit ∨ (start ≠ 0 ∧ total < start) ∨ total > endV
          · rw [runRows_cons_stop op hdrLen limit start endV r d rest line total result
              hall.1 hop hC]
            exact ih k' bad hget' hbad hall.2 hok.2 (line + 1) (total + 1) result
          · rw [runRows_cons_push op hdrLen limit start endV r d rest line total result
              hall.1 hop hC]
            exact ih k' bad hget' hbad hall.2 hok.2 (line + 1) (total + 1) (result ++ [d])

/-- Master description of a successful `executeQuery` run: over a well-formed
stream whose predicate never throws, it returns the accepted-row count, the
1-based page, the rounded-up page count, the display header, and the
projected `[offset*limit, offset*limit + limit)` window of accepted rows. -/
theorem executeQuery_ok (S : SemverLib) (R : RegExpLib) (q : Query) (oh : List String) (dataRows : List Row)
    (hlen : ∀ r ∈ dataRows, r.length = oh.length)
    (hok : ∀ r ∈ dataRows, isOkB (evalOp S R q.whereExpr r oh) = true) :
    executeQuery S R q (oh :: dataRows) =
      .ok { total := (acceptedRows S R q.whereExpr oh dataRows).length
            page := q.offset + 1
            pages := pagesOf (acceptedRows S R q.whereExpr oh dataRows).length q.limit
            header := displayHeaderOf q oh
            result := (((acceptedRows S R q.whereExpr oh dataRows).drop
                (q.offset * q.limit)).take q.limit).map
                (projectRow (headerIndexOf q oh) oh) } := by
  have hrun := runRows_eq (fun row => evalOp S R q.whereExpr row oh) oh.length q.limit
      (q.offset * q.limit) (fun r d h => evalOp_id S R q.whereExpr r oh d h) dataRows hlen hok 2 []
  simp only [List.length_nil, List.drop_nil, List.take_nil, List.nil_append] at hrun
  simp only [executeQuery]
  rw [hrun]
  simp only [acceptedRows]

end Pagination

/-- Claim C1: over a well-formed file, for offset `o` and limit `l` the
returned result is exactly the projection of the predicate-accepted rows at
zero-based ranks `[o*l, o*l + l)` among all accepted rows, in stream order,
as produced by the discard condition of the page accumulator. -/
theorem claim_C1 (S : SemverLib) (R : RegExpLib) (q : Query) (oh : List String) (dataRows : List Row)
    (hlen : ∀ r ∈ dataRows, r.length = oh.length)
    (hok : ∀ r ∈ dataRows, isOkB (evalOp S R q.whereExpr r oh) = true) :
    ∃ env, executeQuery S R q (oh :: dataRows) = .ok env ∧
      env.result = (((acceptedRows S R q.whereExpr oh dataRows).drop
          (q.offset * q.limit)).take q.limit).map (projectRow (headerIndexOf q oh) oh) :=
  ⟨_, executeQuery_ok S R q oh dataRows hlen hok, rfl⟩

/-- Concrete instantiation of claim C1 at `offset = 1`, `limit = 2` over five
matching rows: the window is the third and fourth accepted rows. -/
theorem claim_C1_witness :
    ∃ env, executeQuery trivialSemver sampleRegExp ⟨none, none, 1, 2⟩
        [["a"], ["1"], ["2"], ["3"], ["4"], ["5"]] = .ok env ∧
      env.result = (((acceptedRows trivialSemver sampleRegExp none ["a"]
          [["1"], ["2"], ["3"], ["4"], ["5"]]).drop (1 * 2)).take 2).map
          (projectRow (headerIndexOf ⟨none, none, 1, 2⟩ ["a"]) ["a"]) :=
  claim_C1 trivialSemver sampleRegExp ⟨none, none, 1, 2⟩ ["a"] [["1"], ["2"], ["3"], ["4"], ["5"]]
    (by decide) (by decide)

/-- Claim C2: over a well-formed file the envelope's `total` equals the
number of predicate-accepted rows, for every `limit` and `offset`. -/
theorem claim_C2 (S : SemverLib) (R : RegExpLib) (q : Query) (oh : List String) (dataRows : List Row)
    (hlen : ∀ r ∈ dataRows, r.length = oh.length)
    (hok : ∀ r ∈ dataRows, isOkB (evalOp S R q.whereExpr r oh) = true) :
    ∃ env, executeQuery S R q (oh :: dataRows) = .ok env ∧
      env.total = (acceptedRows S R q.whereExpr oh dataRows).length :=
  ⟨_, executeQuery_ok S R q oh dataRows hlen hok, rfl⟩

/-- Concrete instantiation of claim C2: three accepted rows out of three are
counted although `limit = 1` keeps only one of them in the page. -/
theorem claim_C2_witness :
    ∃ env, executeQuery trivialSemver sampleRegExp ⟨none, none, 0, 1⟩ [["a"], ["1"], ["2"], ["3"]] = .ok env ∧
      env.total = (acceptedRows trivialSemver sampleRegExp none ["a"] [["1"], ["2"], ["3"]]).length :=
  claim_C2 trivialSemver sampleRegExp ⟨none, none, 0, 1⟩ ["a"] [["1"], ["2"], ["3"]]
    (by decide) (by decide)

/-- Every successful run computes `pages` from `total` and `limit` via
`pagesOf`, and `page` as `offset + 1`. -/
theorem executeQuery_pages (S : SemverLib) (R : RegExpLib) (q : Query) (rows : List Row) (env : Envelope)
    (h : executeQuery S R q rows = .ok env) :
    env.pages = pagesOf env.total q.limit ∧ env.page = q.offset + 1 := by
  cases rows with
  | nil =>
    simp only [executeQuery, Except.ok.injEq] at h
    rw [← h]
    exact ⟨rfl, rfl⟩
  | cons oh dataRows =>
    simp only [executeQuery] at h
    cases hr : runRows (fun row => evalOp S R q.whereExpr row oh) oh.length q.limit
        (q.offset * q.limit) (q.offset * q.limit + q.limit) dataRows 2 0 [] with
    | error e =>
      rw [hr] at h
      exact Except.noConfusion h
    | ok p =>
      rw [hr] at h
      obtain ⟨total, pageRows⟩ := p
      simp only [Except.ok.injEq] at h
      rw [← h]
      exact ⟨rfl, rfl⟩

/-- The rounded-up quotient computed by the source equals the ceiling
division `(total + limit - 1) / limit`, floored to at least one. -/
theorem pagesOf_eq (total limit : Nat) (h : 0 < limit) :
    pagesOf total limit = max 1 ((total + limit - 1) / limit) := by
  have hdm := Nat.div_add_mod total limit
  have hrlt : total % limit < limit := Nat.mod_lt _ h
  unfold pagesOf
  by_cases h0 : total % limit = 0
  · rw [if_pos h0]
    have htot : total + limit - 1 = limit * (total / limit) + (limit - 1) := by omega
    have hdiv : (total + limit - 1) / limit = total / limit + (limit - 1) / limit := by
      rw [htot, Nat.mul_add_div h]
    have hz : (limit - 1) / limit = 0 := Nat.div_eq_of_lt (by omega)
    rw [hdiv, hz, Nat.add_zero]
  · rw [if_neg h0]
    have hy : limit * (total / limit + 1) = limit * (total / limit) + limit := by ring
    have htot : total + limit - 1 = limit * (total / limit + 1) + (total % limit - 1) := by
      omega
    have hdiv : (total + limit - 1) / limit
        = (total / limit + 1) + (total % limit - 1) / limit := by
      rw [htot, Nat.mul_add_div h]
    have hz : (total % limit - 1) / limit = 0 := Nat.div_eq_of_lt (by omega)
    rw [hdiv, hz, Nat.add_zero]

/-- Claim C3: for every query with a positive limit, the returned envelope
satisfies `pages = max(1, ceil(total / limit))`; in particular `total = 0`
implies `pages = 1`. -/
theorem claim_C3 (S : SemverLib) (R : RegExpLib) (q : Query) (rows : List Row) (env : Envelope)
    (h : executeQuery S R q rows = .ok env) (hl : 0 < q.limit) :
    env.pages = max 1 ((env.total + q.limit - 1) / q.limit) ∧
    (env.total = 0 → env.pages = 1) := by
  obtain ⟨hp, _⟩ := executeQuery_pages S R q rows env h
  constructor
  · rw [hp, pagesOf_eq env.total q.limit hl]
  · intro h0
    rw [hp, h0]
    simp [pagesOf]

/-- Concrete instantiation of claim C3: one match with `limit = 10` yields a
single page. -/
theorem claim_C3_witness :
    executeQuery trivialSemver sampleRegExp ⟨none, none, 0, 10⟩ [["a"], ["1"]]
      = .ok ⟨1, 1, 1, ["a"], [[some "1"]]⟩ ∧
    (⟨1, 1, 1, ["a"], [[some "1"]]⟩ : Envelope).pages = max 1 ((1 + 10 - 1) / 10) := by
  have h : executeQuery trivialSemver sampleRegExp ⟨none, none, 0, 10⟩ [["a"], ["1"]]
      = .ok ⟨1, 1, 1, ["a"], [[some "1"]]⟩ := by decide
  exact ⟨h, (claim_C3 trivialSemver sampleRegExp ⟨none, none, 0, 10⟩ [["a"], ["1"]] _ h (by decide)).1⟩

/-- Claim C9: a data row whose field count differs from the header's aborts
the query with `rowShapeMismatch` citing that row's 1-based file line
(header is line 1), provided the walk reaches it; no envelope is returned. -/
theorem claim_C9 (S : SemverLib) (R : RegExpLib) (q : Query) (oh : List String) (dataRows : List Row)
    (k : Nat) (bad : Row)
    (hget : dataRows.get? k = some bad)
    (hbad : bad.length ≠ oh.length)
    (hgood : (dataRows.take k).all (fun r => r.length == oh.length) = true)
    (hok : (dataRows.take k).all (fun r => isOkB (evalOp S R q.whereExpr r oh)) = true) :
    executeQuery S R q (oh :: dataRows) = .error (.rowShapeMismatch (k + 2)) ∧
    ∀ env, executeQuery S R q (oh :: dataRows) ≠ .ok env := by
  have herr := runRows_shape_error (fun row => evalOp S R q.whereExpr row oh) oh.length q.limit
      (q.offset * q.limit) (q.offset * q.limit + q.limit) dataRows k bad hget hbad hgood hok
      2 0 []
  rw [show 2 + k = k + 2 from by omega] at herr
  have h1 : executeQuery S R q (oh :: dataRows) = .error (.rowShapeMismatch (k + 2)) := by
    simp only [executeQuery]
    rw [herr]
  exact ⟨h1, fun env hcon => Except.noConfusion (h1.symm.trans hcon)⟩

/-- Concrete instantiation of claim C9, matching the spec's example: a
mismatched row as the sixth data row is file line 7, and the query errors. -/
theorem claim_C9_witness :
    ([["1", "2"], ["1", "2"], ["1", "2"], ["1", "2"], ["1", "2"], ["9"]].get? 5
        = some ["9"]) ∧
    executeQuery trivialSemver sampleRegExp ⟨none, none, 0, 10⟩
        (["a", "b"] :: [["1", "2"], ["1", "2"], ["1", "2"], ["1", "2"], ["1", "2"], ["9"]])
      = .error (.rowShapeMismatch 7) :=
  ⟨by decide,
   (claim_C9 trivialSemver sampleRegExp ⟨none, none, 0, 10⟩ ["a", "b"]
      [["1", "2"], ["1", "2"], ["1", "2"], ["1", "2"], ["1", "2"], ["9"]] 5 ["9"]
      (by decide) (by decide) (by decide) (by decide)).1⟩

section Projection

/-- Folding cons over a list reverses it onto the accumulator. -/
theorem foldl_cons_rev {α : Type} :
    ∀ (ps acc : List α), ps.foldl (fun r x => x :: r) acc = ps.reverse ++ acc := by
  intro ps
  induction ps with
  | nil => intro acc; simp
  | cons x t ih =>
    intro acc
    simp only [List.foldl_cons, List.reverse_cons, List.append_assoc]
    rw [ih]
    simp

/-- The record built by spread-and-overwrite is the reversed pair list. -/
theorem buildRecord_eq {α : Type} (pairs : List (String × α)) :
    buildRecord pairs = pairs.reverse := by
  unfold buildRecord
  rw [foldl_cons_rev]
  simp

/-- A successful lookup comes from a pair of the list. -/
theorem lookup_mem {α : Type} :
    ∀ (ps : List (String × α)) (k : String) (v : α),
      List.lookup k ps = some v → (k, v) ∈ ps := by
  intro ps
  induction ps with
  | nil => intro k v h; simp [List.lookup] at h
  | cons x t ih =>
    intro k v h
    obtain ⟨a, b⟩ := x
    simp only [List.lookup] at h
    cases hka : k == a with
    | true =>
      rw [hka] at h
      have hk : k = a := eq_of_beq hka
      have hv : b = v := Option.some.inj h
      simp [hk, hv]
    | false =>
      rw [hka] at h
      exact List.mem_cons_of_mem _ (ih k v h)

/-- With pairwise-distinct keys, lookup finds the unique pair of a key. -/
theorem lookup_nodup_mem {α : Type} :
    ∀ (ps : List (String × α)), (ps.map Prod.fst).Nodup →
      ∀ (k : String) (v : α), (k, v) ∈ ps → List.lookup k ps = some v := by
  intro ps
  induction ps with
  | nil => intro _ k v h; simp at h
  | cons x t ih =>
    intro hnd k v hmem
    obtain ⟨a, b⟩ := x
    simp only [List.map_cons, List.nodup_cons] at hnd
    simp only [List.lookup]
    rcases List.mem_cons.mp hmem with heq | htail
    · obtain ⟨hk, hv⟩ := Prod.mk.injEq .. ▸ heq
      subst hk; subst hv
      rw [beq_self_eq_true]
    · have hka : (k == a) = false := by
        by_contra hcon
        rw [Bool.not_eq_false] at hcon
        have : k = a := eq_of_beq hcon
        subst this
        exact hnd.1 (List.mem_map.mpr ⟨(k, v), htail, rfl⟩)
      rw [hka]
      exact ih hnd.2 k v htail

/-- Looking up a key in a diagonal record (every value equals its key)
returns the key itself. -/
theorem lookup_diag :
    ∀ (ps : List (String × String)), (∀ x ∈ ps, x.1 = x.2) →
      ∀ k, k ∈ ps.map Prod.fst → List.lookup k ps = some k := by
  intro ps
  induction ps with
  | nil => intro _ k h; simp at h
  | cons x t ih =>
    intro hall k hk
    obtain ⟨a, b⟩ := x
    have hab : a = b := hall (a, b) (by simp)
    simp only [List.lookup]
    cases hka : k == a with
    | true =>
      have hk2 : k = a := eq_of_beq hka
      exact congrArg some (hk2.trans hab).symm
    | false =>
      apply ih (fun x hx => hall x (by simp [hx])) k
      simp only [List.map_cons, List.mem_cons] at hk
      rcases hk with rfl | hk
      · rw [beq_self_eq_true] at hka
        exact absurd hka (by simp)
      · exact hk

/-- Membership in an index-paired list is a successful positional read. -/
theorem mem_idxZip {α : Type} :
    ∀ (l : List α) (n i : Nat) (a : α),
      (i, a) ∈ idxZip n l ↔ ∃ j, i = n + j ∧ l.get? j = some a := by
  intro l
  induction l with
  | nil =>
    intro n i a
    simp [idxZip]
  | cons b t ih =>
    intro n i a
    simp only [idxZip, List.mem_cons]
    constructor
    · rintro (h | h)
      · obtain ⟨hi, hb⟩ := Prod.mk.injEq .. ▸ h
        exact ⟨0, by omega, by simp [hb]⟩
      · obtain ⟨j, hj, hg⟩ := (ih (n + 1) i a).mp h
        exact ⟨j + 1, by omega, by simpa using hg⟩
    · rintro ⟨j, hi, hg⟩
      cases j with
      | zero =>
        left
        simp only [List.get?] at hg
        have hb : b = a := Option.some.inj hg
        simp [hi, hb]
      | succ j' =>
        right
        exact (ih (n + 1) i a).mpr ⟨j', by omega, by simpa using hg⟩

/-- A position returned by the header-index record reads back the key at
that position of the derived-name list: the record is positional. -/
theorem lookup_headerIndexOf (q : Query) (oh : List String) (k : String) (p : Nat)
    (h : List.lookup k (headerIndexOf q oh) = some p) :
    (keysOf q oh).get? p = some k := by
  cases hc : q.columns with
  | none =>
    simp only [headerIndexOf, hc, buildRecord_eq] at h
    simp only [keysOf, hc]
    have hmem := lookup_mem _ _ _ h
    rw [List.mem_reverse] at hmem
    obtain ⟨⟨i, a⟩, hiv, heq⟩ := List.mem_map.mp hmem
    simp only [Prod.mk.injEq] at heq
    obtain ⟨hk, hp⟩ := heq
    obtain ⟨j, hij, hg⟩ := (mem_idxZip oh 0 i a).mp hiv
    have hj : j = p := by omega
    rw [← hj, hg, hk]
  | some cols =>
    simp only [headerIndexOf, hc, buildRecord_eq] at h
    simp only [keysOf, hc]
    have hmem := lookup_mem _ _ _ h
    rw [List.mem_reverse] at hmem
    obtain ⟨⟨i, c⟩, hiv, heq⟩ := List.mem_map.mp hmem
    simp only [Prod.mk.injEq] at heq
    obtain ⟨hk, hp⟩ := heq
    obtain ⟨j, hij, hg⟩ := (mem_idxZip cols 0 i c).mp hiv
    have hj : j = p := by omega
    rw [List.get?_map, ← hj, hg]
    simp [hk]

/-- Two keys mapped to the same output position are the same key. -/
theorem lookup_headerIndexOf_inj (q : Query) (oh : List String) (k1 k2 : String) (p : Nat)
    (h1 : List.lookup k1 (headerIndexOf q oh) = some p)
    (h2 : List.lookup k2 (headerIndexOf q oh) = some p) : k1 = k2 := by
  have g1 := lookup_headerIndexOf q oh k1 p h1
  have g2 := lookup_headerIndexOf q oh k2 p h2
  rw [g1] at g2
  exact Option.some.inj g2

/-- With no projection the display header is the raw source header. -/
theorem displayHeaderOf_none (q : Query) (oh : List String) (hc : q.columns = none) :
    displayHeaderOf q oh = oh := by
  unfold displayHeaderOf keysOf headerNameOf
  rw [hc]
  have hmap : ∀ n ∈ oh,
      (List.lookup n (buildRecord (oh.map (fun x => (x, x))))).getD "undefined" = id n := by
    intro n hn
    have hl : List.lookup n (buildRecord (oh.map (fun x => (x, x)))) = some n := by
      rw [buildRecord_eq]
      apply lookup_diag
      · intro x hx
        rw [List.mem_reverse] at hx
        obtain ⟨y, hy, rfl⟩ := List.mem_map.mp hx
        rfl
      · rw [List.map_reverse, List.mem_reverse]
        have : (oh.map (fun x => (x, x))).map Prod.fst = oh := by
          rw [List.map_map]
          exact List.map_id oh
        rw [this]
        exact hn
    rw [hl]
    rfl
  rw [List.map_congr_left hmap, List.map_id]

/-- With a projection whose derived names are pairwise distinct, the display
header lists `column.as || getColumnName(column)` in selection order. -/
theorem displayHeaderOf_some (q : Query) (oh : List String) (cols : List SQLColumn)
    (hc : q.columns = some cols) (hnd : (cols.map getColumnName).Nodup) :
    displayHeaderOf q oh = cols.map aliasOrName := by
  unfold displayHeaderOf keysOf headerNameOf
  rw [hc, List.map_map]
  have hmap : ∀ c ∈ cols,
      ((fun n => (List.lookup n (buildRecord
          (cols.map (fun x => (getColumnName x, aliasOrName x))))).getD "undefined")
        ∘ getColumnName) c = aliasOrName c := by
    intro c hcm
    have hl : List.lookup (getColumnName c)
        (buildRecord (cols.map (fun x => (getColumnName x, aliasOrName x))))
        = some (aliasOrName c) := by
      rw [buildRecord_eq]
      apply lookup_nodup_mem
      · rw [List.map_reverse, List.nodup_reverse, List.map_map]
        have : (Prod.fst ∘ fun x => (getColumnName x, aliasOrName x)) = getColumnName := rfl
        rw [this]
        exact hnd
      · rw [List.mem_reverse]
        exact List.mem_map.mpr ⟨c, hcm, rfl⟩
    simp only [Function.comp]
    rw [hl]
    rfl
  rw [List.map_congr_left hmap]

/-- The sequence of sparse-array assignments performed by the projection
`reduce`, replayed explicitly: specification device for `projectRow`. -/
def applyWrites : List (Option String) → List (Nat × String) → List (Option String)
  | acc, [] => acc
  | acc, (p, v) :: rest => applyWrites (setSparse acc p v) rest

/-- The (position, field) assignments the projection `reduce` performs on a
row, in order: one per source field whose looked-up name has an entry. -/
def writesOf (headerIndex : List (String × Nat)) (originalHeader : List String)
    (row : Row) : List (Nat × String) :=
  (idxZip 0 row).filterMap
    (fun iv => (List.lookup (originalHeader.getD iv.1 "undefined") headerIndex).map
      (fun p => (p, iv.2)))

/-- The projection fold is the replay of its assignment sequence. -/
theorem foldl_applyWrites (headerIndex : List (String × Nat)) (oh : List String) :
    ∀ (ivs : List (Nat × String)) (acc : List (Option String)),
      ivs.foldl (fun value iv =>
        match List.lookup (oh.getD iv.1 "undefined") headerIndex with
        | some position => setSparse value position iv.2
        | none => value) acc
      = applyWrites acc (ivs.filterMap
          (fun iv => (List.lookup (oh.getD iv.1 "undefined") headerIndex).map
            (fun p => (p, iv.2)))) := by
  intro ivs
  induction ivs with
  | nil => intro acc; rfl
  | cons iv t ih =>
    intro acc
    simp only [List.foldl_cons, List.filterMap_cons]
    cases hl : List.lookup (oh.getD iv.1 "undefined") headerIndex with
    | none =>
      simp only [Option.map_none']
      exact ih acc
    | some p =>
      simp only [Option.map_some']
      exact ih (setSparse acc p iv.2)

/-- `projectRow` replayed as its assignment sequence over a fresh array. -/
theorem projectRow_eq (headerIndex : List (String × Nat)) (oh : List String) (row : Row) :
    projectRow headerIndex oh row = applyWrites [] (writesOf headerIndex oh row) := by
  unfold projectRow writesOf
  exact foldl_applyWrites headerIndex oh (idxZip 0 row) []

/-- In-range `set` places its value at the written index. -/
theorem get?_set_self' :
    ∀ (l : List (Option String)) (p : Nat) (v : Option String),
      p < l.length → (l.set p v).get? p = some v := by
  intro l
  induction l with
  | nil => intro p v h; simp at h
  | cons a t ih =>
    intro p v h
    cases p with
    | zero => rfl
    | succ p' => simpa using ih p' v (by simpa using h)

/-- `set` does not touch other indices. -/
theorem get?_set_ne' :
    ∀ (l : List (Option String)) (p q : Nat) (v : Option String),
      p ≠ q → (l.set p v).get? q = l.get? q := by
  intro l
  induction l with
  | nil => intro p q v _; simp
  | cons a t ih =>
    intro p q v hne
    cases p with
    | zero =>
      cases q with
      | zero => exact absurd rfl hne
      | succ q' => rfl
    | succ p' =>
      cases q with
      | zero => rfl
      | succ q' => simpa using ih p' q' v (by omega)

/-- Every in-range cell of a hole run is a hole. -/
theorem get?_replicate_none :
    ∀ (n i : Nat), i < n → (List.replicate n (none : Option String)).get? i = some none := by
  intro n
  induction n with
  | zero => intro i h; omega
  | succ n' ih =>
    intro i h
    cases i with
    | zero => rfl
    | succ i' => simpa [List.replicate_succ] using ih i' (by omega)

/-- The sparse assignment places its value at the target position. -/
theorem setSparse_get_self (l : List (Option String)) (p : Nat) (v : String) :
    (setSparse l p v).get? p = some (some v) := by
  unfold setSparse
  by_cases h : p < l.length
  · rw [if_pos h]
    exact get?_set_self' l p (some v) h
  · rw [if_neg h]
    have h1 : (l ++ List.replicate (p - l.length) none).length ≤ p := by
      simp only [List.length_append, List.length_replicate]
      omega
    have hlen : (l ++ List.replicate (p - l.length) none).length = p := by
      simp only [List.length_append, List.length_replicate]
      omega
    rw [List.get?_append_right h1, hlen, Nat.sub_self]
    rfl

/-- The sparse assignment neither creates nor destroys populated cells at
other positions: it pads only with holes. -/
theorem setSparse_get_ne (l : List (Option String)) (p q : Nat) (v w : String)
    (hne : q ≠ p) :
    ((setSparse l p v).get? q = some (some w)) ↔ (l.get? q = some (some w)) := by
  unfold setSparse
  by_cases h : p < l.length
  · rw [if_pos h, get?_set_ne' l p q (some v) (fun he => hne he.symm)]
  · rw [if_neg h]
    by_cases hq : q < l.length
    · rw [List.get?_append (by
        simp only [List.length_append, List.length_replicate]
        omega)]
      rw [List.get?_append hq]
    · have hrl : l.get? q = none := List.get?_eq_none.mpr (by omega)
      rw [hrl]
      constructor
      · intro hL
        exfalso
        by_cases hqp : q < p
        · rw [List.get?_append (by
            simp only [List.length_append, List.length_replicate]
            omega)] at hL
          rw [List.get?_append_right (show l.length ≤ q by omega)] at hL
          rw [get?_replicate_none (p - l.length) (q - l.length) (by omega)] at hL
          simp at hL
        · have hend : ((l ++ List.replicate (p - l.length) none) ++ [some v]).get? q = none :=
            List.get?_eq_none.mpr (by
              simp only [List.length_append, List.length_replicate, List.length_singleton]
              omega)
          rw [hend] at hL
          exact Option.noConfusion hL
      · intro hR
        exact Option.noConfusion hR

/-- Positions never written keep (exactly) their populated cells. -/
theorem applyWrites_get_notin :
    ∀ (ws : List (Nat × String)) (acc : List (Option String)) (p : Nat) (w : String),
      p ∉ ws.map Prod.fst →
      ((applyWrites acc ws).get? p = some (some w) ↔ acc.get? p = some (some w)) := by
  intro ws
  induction ws with
  | nil => intro acc p w _; exact Iff.rfl
  | cons x t ih =>
    intro acc p w hnotin
    obtain ⟨p0, v0⟩ := x
    simp only [List.map_cons, List.mem_cons] at hnotin
    push_neg at hnotin
    rw [show applyWrites acc ((p0, v0) :: t) = applyWrites (setSparse acc p0 v0) t from rfl]
    rw [ih (setSparse acc p0 v0) p w hnotin.2]
    exact setSparse_get_ne acc p0 p v0 w hnotin.1

/-- With pairwise-distinct target positions, each written value is found at
its position in the final array. -/
theorem applyWrites_get_mem :
    ∀ (ws : List (Nat × String)) (acc : List (Option String)),
      (ws.map Prod.fst).Nodup →
      ∀ (p : Nat) (v : String), (p, v) ∈ ws →
        (applyWrites acc ws).get? p = some (some v) := by
  intro ws
  induction ws with
  | nil => intro acc _ p v h; simp at h
  | cons x t ih =>
    intro acc hnd p v hmem
    obtain ⟨p0, v0⟩ := x
    simp only [List.map_cons, List.nodup_cons] at hnd
    rw [show applyWrites acc ((p0, v0) :: t) = applyWrites (setSparse acc p0 v0) t from rfl]
    rcases List.mem_cons.mp hmem with heq | htail
    · simp only [Prod.mk.injEq] at heq
      obtain ⟨hp, hv⟩ := heq
      subst hp
      subst hv
      rw [applyWrites_get_notin t (setSparse acc p v) p v hnd.1]
      exact setSparse_get_self acc p v
    · exact ih (setSparse acc p0 v0) hnd.2 p v htail

/-- Every populated cell of the final array comes from one of the writes (or
from the initial array). -/
theorem applyWrites_get_src :
    ∀ (ws : List (Nat × String)) (acc : List (Option String)) (p : Nat) (w : String),
      (applyWrites acc ws).get? p = some (some w) →
      (p, w) ∈ ws ∨ acc.get? p = some (some w) := by
  intro ws
  induction ws with
  | nil => intro acc p w h; exact Or.inr h
  | cons x t ih =>
    intro acc p w h
    obtain ⟨p0, v0⟩ := x
    rw [show applyWrites acc ((p0, v0) :: t) = applyWrites (setSparse acc p0 v0) t from rfl] at h
    rcases ih (setSparse acc p0 v0) p w h with hin | hacc
    · exact Or.inl (List.mem_cons_of_mem _ hin)
    · by_cases hpq : p = p0
      · subst hpq
        have hself := setSparse_get_self acc p v0
        have hv : v0 = w :=
          Option.some.inj (Option.some.inj (hself.symm.trans hacc))
        subst hv
        exact Or.inl (by simp)
      · rw [setSparse_get_ne acc p0 p v0 w hpq] at hacc
        exact Or.inr hacc

/-- The writes of a row are exactly the in-range fields whose looked-up
source name has an entry in the record. -/
theorem mem_writesOf_aux (headerIndex : List (String × Nat)) (oh : List String) :
    ∀ (row : List String) (n p : Nat) (v : String),
      ((p, v) ∈ (idxZip n row).filterMap
        (fun iv => (List.lookup (oh.getD iv.1 "undefined") headerIndex).map
          (fun q => (q, iv.2)))) ↔
      ∃ j, j < row.length ∧ row.get? j = some v ∧
        List.lookup (oh.getD (n + j) "undefined") headerIndex = some p := by
  intro row n p v
  rw [List.mem_filterMap]
  constructor
  · rintro ⟨⟨i, a⟩, hiv, hg⟩
    rw [Option.map_eq_some'] at hg
    obtain ⟨q, hq, hqe⟩ := hg
    simp only [Prod.mk.injEq] at hqe
    obtain ⟨hqp, hav⟩ := hqe
    obtain ⟨j, hij, hgj⟩ := (mem_idxZip row n i a).mp hiv
    refine ⟨j, ?_, ?_, ?_⟩
    · have hcon : ¬ row.length ≤ j := fun hle => by
        rw [List.get?_eq_none.mpr hle] at hgj
        exact Option.noConfusion hgj
      omega
    · rw [hgj, hav]
    · rw [hij] at hq
      rw [hqp] at hq
      exact hq
  · rintro ⟨j, hj, hgj, hlook⟩
    refine ⟨(n + j, v), (mem_idxZip row n (n + j) v).mpr ⟨j, rfl, hgj⟩, ?_⟩
    show (List.lookup (oh.getD (n + j) "undefined") headerIndex).map
        (fun q => (q, v)) = some (p, v)
    rw [hlook]
    rfl

/-- A positional read of a list at an in-range index is its `getD` value. -/
theorem get?_getD (l : List String) :
    ∀ (i : Nat) (d : String), i < l.length → l.get? i = some (l.getD i d) := by
  induction l with
  | nil => intro i d h; simp at h
  | cons a t ih =>
    intro i d h
    cases i with
    | zero => rfl
    | succ i' => simpa using ih i' d (by simpa using h)

/-- In a duplicate-free list, equal in-range `getD` reads have equal index. -/
theorem nodup_getD_inj (l : List String) (hnd : l.Nodup) (i j : Nat) (d : String)
    (hi : i < l.length) (hj : j < l.length) (h : l.getD i d = l.getD j d) : i = j := by
  apply List.get?_inj hi hnd
  rw [get?_getD l i d hi, get?_getD l j d hj, h]

/-- Over a duplicate-free source header, the projection writes of a row whose
fields all lie within the header target pairwise-distinct positions. -/
theorem writesOf_fst_nodup (q : Query) (oh : List String) (hnd : oh.Nodup) :
    ∀ (row : List String) (n : Nat), n + row.length ≤ oh.length →
      (((idxZip n row).filterMap
        (fun iv => (List.lookup (oh.getD iv.1 "undefined") (headerIndexOf q oh)).map
          (fun p => (p, iv.2)))).map Prod.fst).Nodup := by
  intro row
  induction row with
  | nil => intro n _; simp [idxZip]
  | cons a t ih =>
    intro n hle
    simp only [List.length_cons] at hle
    simp only [idxZip, List.filterMap_cons]
    cases hl : List.lookup (oh.getD n "undefined") (headerIndexOf q oh) with
    | none =>
      simp only [Option.map_none']
      exact ih (n + 1) (by omega)
    | some p0 =>
      simp only [Option.map_some', List.map_cons, List.nodup_cons]
      constructor
      · intro hmem
        obtain ⟨⟨p', v'⟩, hpv, hfst⟩ := List.mem_map.mp hmem
        have hfst' : p' = p0 := hfst
        obtain ⟨j, hjlt, hgj, hlook⟩ :=
          (mem_writesOf_aux (headerIndexOf q oh) oh t (n + 1) p' v').mp hpv
        rw [hfst'] at hlook
        have hkeys : oh.getD n "undefined" = oh.getD (n + 1 + j) "undefined" :=
          lookup_headerIndexOf_inj q oh _ _ p0 hl hlook
        have heqn := nodup_getD_inj oh hnd n (n + 1 + j) "undefined"
          (by omega) (by omega) hkeys
        omega
      · exact ih (n + 1) (by omega)

/-- Each source field whose source column name is mapped by the header index
ends up, over a duplicate-free header, at its mapped output position. -/
theorem projectRow_get_of_lookup (q : Query) (oh : List String) (hnd : oh.Nodup)
    (row : Row) (hlen : row.length = oh.length)
    (i : Nat) (n : String) (v : String) (p : Nat)
    (hohn : oh.get? i = some n) (hrv : row.get? i = some v)
    (hlook : List.lookup n (headerIndexOf q oh) = some p) :
    (projectRow (headerIndexOf q oh) oh row).get? p = some (some v) := by
  rw [projectRow_eq]
  have hilt : i < row.length := by
    have hcon : ¬ row.length ≤ i := fun hle => by
      rw [List.get?_eq_none.mpr hle] at hrv
      exact Option.noConfusion hrv
    omega
  apply applyWrites_get_mem
  · exact writesOf_fst_nodup q oh hnd row 0 (by omega)
  · apply (mem_writesOf_aux (headerIndexOf q oh) oh row 0 p v).mpr
    refine ⟨i, hilt, hrv, ?_⟩
    have hgd : oh.getD (0 + i) "undefined" = n := by
      rw [Nat.zero_add]
      have hgg := get?_getD oh i "undefined" (by omega)
      rw [hohn] at hgg
      exact (Option.some.inj hgg).symm
    rw [hgd]
    exact hlook

/-- Every populated cell of a projected row is a source field placed through
the header index; fields without an entry are dropped. -/
theorem projectRow_src (q : Query) (oh : List String) (row : Row)
    (hlen : row.length ≤ oh.length) (p : Nat) (v : String)
    (h : (projectRow (headerIndexOf q oh) oh row).get? p = some (some v)) :
    ∃ i n, oh.get? i = some n ∧ row.get? i = some v ∧
      List.lookup n (headerIndexOf q oh) = some p := by
  rw [projectRow_eq] at h
  rcases applyWrites_get_src _ _ p v h with hin | hacc
  · unfold writesOf at hin
    obtain ⟨j, hj, hgj, hlook⟩ :=
      (mem_writesOf_aux (headerIndexOf q oh) oh row 0 p v).mp hin
    rw [Nat.zero_add] at hlook
    exact ⟨j, oh.getD j "undefined", get?_getD oh j "undefined" (by omega), hgj, hlook⟩
  · simp at hacc

/-- A successful run's envelope carries the display header, and each of its
result rows is the projection of some source row. -/
theorem executeQuery_header_result (S : SemverLib) (R : RegExpLib) (q : Query) (oh : List String)
    (dataRows : List Row) (env : Envelope)
    (h : executeQuery S R q (oh :: dataRows) = .ok env) :
    env.header = displayHeaderOf q oh ∧
    ∀ out ∈ env.result, ∃ src, out = projectRow (headerIndexOf q oh) oh src := by
  simp only [executeQuery] at h
  cases hr : runRows (fun row => evalOp S R q.whereExpr row oh) oh.length q.limit
      (q.offset * q.limit) (q.offset * q.limit + q.limit) dataRows 2 0 [] with
  | error e =>
    rw [hr] at h
    exact Except.noConfusion h
  | ok p =>
    rw [hr] at h
    obtain ⟨total, pageRows⟩ := p
    simp only [Except.ok.injEq] at h
    rw [← h]
    refine ⟨rfl, ?_⟩
    intro out hout
    obtain ⟨src, hsrc, heq⟩ := List.mem_map.mp hout
    exact ⟨src, heq.symm⟩

end Projection

/-- Counterexample to claim C8: two selections deriving the same column name
`a` with distinct aliases `x` and `y` do not display `["x", "y"]` — the
display-name record is keyed by the derived name, so the later alias wins for
both occurrences and the header is `["y", "y"]`. -/
theorem claim_C8_cex :
    Except.map Envelope.header (executeQuery trivialSemver sampleRegExp
        ⟨some [⟨ColExpr.col "a", some "x"⟩, ⟨ColExpr.col "a", some "y"⟩], none, 0, 10⟩
        [["a"], ["v"]])
      = .ok ["y", "y"] ∧
    ¬ Except.map Envelope.header (executeQuery trivialSemver sampleRegExp
        ⟨some [⟨ColExpr.col "a", some "x"⟩, ⟨ColExpr.col "a", some "y"⟩], none, 0, 10⟩
        [["a"], ["v"]])
      = .ok ["x", "y"] := by
  exact ⟨by decide, by decide⟩

/-- Claim C8 as amended: with a selection list whose derived column names are
pairwise distinct, the envelope's header lists the selected columns' display
names (the alias when present and non-empty, else the derived name, a
function call deriving the literal `func(col)`) in selection order; with no
selection the header is the raw source header.  Each returned row is a newly
built projection of a source row in which — over a duplicate-free source
header — every source field whose source column name has an entry in the
position map sits at that output position, and every populated output cell
comes from such a mapped field (unmapped fields are dropped). -/
theorem claim_C8_amended (S : SemverLib) (R : RegExpLib) (q : Query) (oh : List String)
    (dataRows : List Row) :
    (q.columns = none → displayHeaderOf q oh = oh)
    ∧ (∀ cols, q.columns = some cols → (cols.map getColumnName).Nodup →
        displayHeaderOf q oh = cols.map aliasOrName)
    ∧ (∀ (f a : String) (al : Option String),
        getColumnName ⟨ColExpr.funcCall f a, al⟩ = f ++ "(" ++ a ++ ")")
    ∧ (∀ env, executeQuery S R q (oh :: dataRows) = .ok env →
        env.header = displayHeaderOf q oh ∧
        ∀ out ∈ env.result, ∃ src, out = projectRow (headerIndexOf q oh) oh src)
    ∧ (oh.Nodup → ∀ (row : Row), row.length = oh.length →
        ∀ (i : Nat) (n v : String) (p : Nat), oh.get? i = some n → row.get? i = some v →
          List.lookup n (headerIndexOf q oh) = some p →
          (projectRow (headerIndexOf q oh) oh row).get? p = some (some v))
    ∧ (∀ (row : Row), row.length ≤ oh.length →
        ∀ (p : Nat) (v : String),
          (projectRow (headerIndexOf q oh) oh row).get? p = some (some v) →
          ∃ i n, oh.get? i = some n ∧ row.get? i = some v ∧
            List.lookup n (headerIndexOf q oh) = some p) :=
  ⟨displayHeaderOf_none q oh,
   fun cols hc hnd => displayHeaderOf_some q oh cols hc hnd,
   fun _ _ _ => rfl,
   fun env h => executeQuery_header_result S R q oh dataRows env h,
   fun hnd row hlen i n v p h1 h2 h3 =>
     projectRow_get_of_lookup q oh hnd row hlen i n v p h1 h2 h3,
   fun row hlen p v h => projectRow_src q oh row hlen p v h⟩

/-- Concrete instantiation of the amended claim C8: aliased and function-call
selections display as expected, the raw header is kept without a selection,
and a projected row carries its mapped field at the mapped position. -/
theorem claim_C8_witness :
    displayHeaderOf ⟨some [⟨ColExpr.funcCall "count" "a", none⟩, ⟨ColExpr.col "b", some "B"⟩],
        none, 0, 10⟩ ["a", "b"]
      = [⟨ColExpr.funcCall "count" "a", none⟩,
         (⟨ColExpr.col "b", some "B"⟩ : SQLColumn)].map aliasOrName ∧
    displayHeaderOf ⟨none, none, 0, 10⟩ ["a", "b"] = ["a", "b"] ∧
    (projectRow (headerIndexOf ⟨some [⟨ColExpr.funcCall "count" "a", none⟩,
        ⟨ColExpr.col "b", some "B"⟩], none, 0, 10⟩ ["a", "b"]) ["a", "b"]
        ["1", "2"]).get? 1
      = some (some "2") := by
  refine ⟨?_, ?_, ?_⟩
  · exact (claim_C8_amended trivialSemver sampleRegExp _ ["a", "b"] []).2.1 _ rfl (by decide)
  · exact (claim_C8_amended trivialSemver sampleRegExp ⟨none, none, 0, 10⟩ ["a", "b"] []).1 rfl
  · exact (claim_C8_amended trivialSemver sampleRegExp _ ["a", "b"] []).2.2.2.2.1 (by decide)
      ["1", "2"] rfl 1 "b" "2" 1 (by decide) (by decide) (by decide)

end Csvql
